import Mathlib

/-!
Shallow embedding of the ozwpan virtual USB host controller
(drivers/staging/ozwpan/ozhcd.c) for checking its natural-language
specification.  Pure Lean functions mirror the C functions; machine
integers of the C are modelled as Nat (for cursors, sizes, byte values)
and Int (for signed counters such as credit and buffered_units, and for
error-code returns).  The byte buffer of an endpoint is modelled as a
total function from positions to byte values.
-/

namespace Ozhcd

/-- Linux error numbers used by the driver (returned negated, as in C). -/
def ENOENT : Int := 2
def ENOMEM : Int := 12
def ENODEV : Int := 19
def EINVAL : Int := 22
def EPIPE : Int := 32

/-- OZ_NB_ENDPOINTS from ozhcd.c. -/
def OZ_NB_ENDPOINTS : Nat := 16
/-- OZ_NB_PORTS from ozhcd.c. -/
def OZ_NB_PORTS : Nat := 8

/-- USB_ENDPOINT_XFERTYPE_MASK (0x3) selects the transfer type bits of
bmAttributes. -/
def USB_ENDPOINT_XFERTYPE_MASK : Nat := 3
def USB_ENDPOINT_XFER_CONTROL : Nat := 0
def USB_ENDPOINT_XFER_ISOC : Nat := 1
def USB_ENDPOINT_XFER_BULK : Nat := 2
def USB_ENDPOINT_XFER_INT : Nat := 3

/-- Model of struct usb_ctrlrequest (the 8-byte setup packet). -/
structure CtrlRequest where
  bRequestType : Nat := 0
  bRequest : Nat := 0
  wValue : Nat := 0
  wIndex : Nat := 0
  wLength : Nat := 0
  deriving Repr, DecidableEq

/-- Model of struct urb: only the fields the driver reads or writes.
transfer_buffer is the byte list the driver copies into (for IN
transfers); transfer_buffer_null models a NULL transfer_buffer pointer.
The pipe is split into its device address, endpoint number, direction
and isochronous-type components. -/
structure Urb where
  transfer_buffer : List Nat := []
  transfer_buffer_null : Bool := false
  transfer_buffer_length : Nat := 0
  actual_length : Nat := 0
  number_of_packets : Nat := 0
  unlinked : Bool := false
  pipe_device : Nat := 0
  pipe_endpoint : Nat := 0
  pipe_in : Bool := false
  pipe_isoc : Bool := false
  setup : CtrlRequest := {}
  deriving Repr, DecidableEq

/-- Model of struct oz_urb_link: the queuing wrapper around one urb. -/
structure UrbLink where
  urb : Urb
  req_id : Nat := 0
  ep_num : Nat := 0
  submit_counter : Nat := 0
  deriving Repr, DecidableEq

/-- Model of struct oz_endpoint.  The flags word is split into the two
bits the driver uses (OZ_F_EP_BUFFERING, OZ_F_EP_HAVE_STREAM).  The
buffer is a total function from cell index to stored byte; hasBuffer
models whether the buffer pointer is non-NULL. -/
structure Endpoint where
  urb_list : List UrbLink := []
  credit2 : Int := 0
  credit : Int := -1
  credit_ceiling : Int := 0
  ep_num : Nat := 0
  attrib : Nat := 0
  hasBuffer : Bool := false
  buffer : Nat → Nat := fun _ => 0
  buffer_size : Nat := 0
  in_ix : Nat := 0
  out_ix : Nat := 0
  buffered_units : Int := 0
  max_buffer_units : Nat := 0
  buffering : Bool := false
  haveStream : Bool := false
  start_frame : Int := 0

/-- memcpy into the ring buffer: write the bytes of data linearly
starting at position start (no wrap-around: the caller splits). -/
def writeBytes (buf : Nat → Nat) (start : Nat) (data : List Nat) : Nat → Nat :=
  fun i => if start ≤ i ∧ i < start + data.length then data.getD (i - start) 0 else buf i

/-- memcpy out of the ring buffer: read len bytes linearly starting at
position start (no wrap-around: the caller splits). -/
def readBytes (buf : Nat → Nat) (start len : Nat) : List Nat :=
  (List.range len).map (fun i => buf (start + i))

/-- The free-space computation of oz_hcd_buffer_data: out_ix - in_ix - 1,
plus buffer_size when negative. -/
def codeSpace (ep : Endpoint) : Int :=
  let space0 : Int := (ep.out_ix : Int) - (ep.in_ix : Int) - 1
  if space0 < 0 then space0 + ep.buffer_size else space0

/-- oz_hcd_buffer_data: append one unit (one-byte length prefix, then
the data bytes) to the ring buffer of the endpoint.  Returns -1 and the
unchanged endpoint when there is no buffer or not enough free space,
otherwise 0 and the updated endpoint.  The (u8) cast of the stored
length prefix is modelled by the mod-256 reduction. -/
def oz_hcd_buffer_data (ep : Endpoint) (data : List Nat) : Int × Endpoint :=
  if ep.hasBuffer = false then (-1, ep)
  else
    let data_len := data.length
    let space : Int := codeSpace ep
    if space < data_len + 1 then (-1, ep)
    else
      let buf1 : Nat → Nat := fun i => if i = ep.in_ix then data_len % 256 else ep.buffer i
      let in1 := if ep.in_ix + 1 = ep.buffer_size then 0 else ep.in_ix + 1
      let copy_len0 := ep.buffer_size - in1
      let copy_len := if copy_len0 > data_len then data_len else copy_len0
      let buf2 := writeBytes buf1 in1 (data.take copy_len)
      let buf3 := if copy_len < data_len then writeBytes buf2 0 (data.drop copy_len) else buf2
      let in2 := if copy_len < data_len then data_len - copy_len else in1 + copy_len
      let in3 := if in2 = ep.buffer_size then 0 else in2
      (0, { ep with buffer := buf3, in_ix := in3,
                    buffered_units := ep.buffered_units + 1 })

/-- oz_complete_buffered_urb: drain one buffered unit into the urb.
Copies at most transfer_buffer_length bytes of the unit, sets
actual_length, advances the read cursor and decrements buffered_units.
The subsequent oz_complete_urb call reports status 0; the caller of
this model records that completion. -/
def oz_complete_buffered_urb (ep : Endpoint) (urb : Urb) : Urb × Endpoint :=
  let data_len := ep.buffer ep.out_ix
  let available_space := if data_len ≤ urb.transfer_buffer_length then data_len
                         else urb.transfer_buffer_length
  let o1 := if ep.out_ix + 1 = ep.buffer_size then 0 else ep.out_ix + 1
  let copy_len0 := ep.buffer_size - o1
  let copy_len := if copy_len0 ≥ available_space then available_space else copy_len0
  let part1 := readBytes ep.buffer o1 copy_len
  let copied := if copy_len < available_space
                then part1 ++ readBytes ep.buffer 0 (available_space - copy_len)
                else part1
  let o2 := if copy_len < available_space then available_space - copy_len else o1 + copy_len
  let o3 := if o2 = ep.buffer_size then 0 else o2
  ({ urb with transfer_buffer := copied, actual_length := available_space },
   { ep with out_ix := o3, buffered_units := ep.buffered_units - 1 })

/-- One iteration of the packet loop in the IN-isochronous part of
oz_hcd_heartbeat: read one unit (length prefix, then that many bytes)
out of the ring buffer, advancing the read cursor.  Returns the bytes
read, the unit length, and the updated endpoint (buffered_units is
decremented in bulk by the caller, as in the C). -/
def heartbeat_read_packet (ep : Endpoint) : List Nat × Nat × Endpoint :=
  let len := ep.buffer ep.out_ix
  let o1 := if ep.out_ix + 1 = ep.buffer_size then 0 else ep.out_ix + 1
  let copy_len0 := ep.buffer_size - o1
  let copy_len := if copy_len0 > len then len else copy_len0
  let part1 := readBytes ep.buffer o1 copy_len
  let copied := if copy_len < len then part1 ++ readBytes ep.buffer 0 (len - copy_len)
                else part1
  let o2 := if copy_len < len then len - copy_len else o1 + copy_len
  let o3 := if o2 = ep.buffer_size then 0 else o2
  (copied, len, { ep with out_ix := o3 })

/-- One iteration of the overflow discard loop in the isochronous branch
of oz_hcd_data_ind: skip one buffered unit without copying it,
decrementing buffered_units. -/
def discard_unit (ep : Endpoint) : Endpoint :=
  let len := ep.buffer ep.out_ix
  let o1 := if ep.out_ix + 1 = ep.buffer_size then 0 else ep.out_ix + 1
  let copy_len0 := ep.buffer_size - o1
  let copy_len := if copy_len0 > len then len else copy_len0
  let o2 := if copy_len < len then len - copy_len else o1 + copy_len
  let o3 := if o2 = ep.buffer_size then 0 else o2
  { ep with out_ix := o3, buffered_units := ep.buffered_units - 1 }

/-- The overflow discard loop of oz_hcd_data_ind: discard buffered
units while more than max_buffer_units of them are held. -/
def discardLoop (ep : Endpoint) : Endpoint :=
  if ep.buffered_units > (ep.max_buffer_units : Int) then discardLoop (discard_unit ep)
  else ep
termination_by (ep.buffered_units - (ep.max_buffer_units : Int)).toNat
decreasing_by simp [discard_unit]; omega

/-- The isochronous branch of oz_hcd_data_ind: try to buffer the data;
if the ring is full, discard buffered units down to max_buffer_units
and set the buffering flag. -/
def oz_hcd_data_ind_isoc (ep : Endpoint) (data : List Nat) : Endpoint :=
  let r := oz_hcd_buffer_data ep data
  if r.1 ≠ 0 then
    let ep2 := discardLoop ep
    { ep2 with buffering := true }
  else r.2

/-- Remove the first link whose urb matches; return it and the rest. -/
def removeFirst (l : List UrbLink) (urb : Urb) : Option (UrbLink × List UrbLink) :=
  match l with
  | [] => none
  | x :: xs =>
      if x.urb = urb then some (x, xs)
      else match removeFirst xs urb with
           | none => none
           | some (y, ys) => some (y, x :: ys)

/-- oz_remove_urb: remove the urb from the endpoint queue; if the urb is
isochronous, decrement the credit by its packet count, clamped at 0. -/
def oz_remove_urb (ep : Endpoint) (urb : Urb) : Option UrbLink × Endpoint :=
  match removeFirst ep.urb_list urb with
  | none => (none, ep)
  | some (l, rest) =>
      if urb.pipe_isoc then
        let c := ep.credit - (urb.number_of_packets : Int)
        (some l, { ep with urb_list := rest, credit := if c < 0 then 0 else c })
      else (some l, { ep with urb_list := rest })

/-- The release loop of the OUT-isochronous part of oz_hcd_heartbeat:
while credit is nonzero and the queue is nonempty, release the head urb
unless its packet count exceeds credit plus one, decrementing credit by
the packet count (clamped at zero).  Returns the final credit, the
released links and the remaining queue. -/
def heartbeat_out_release (credit : Int) (urbs : List UrbLink) :
    Int × List UrbLink × List UrbLink :=
  match urbs with
  | [] => (credit, [], [])
  | l :: rest =>
      if credit = 0 then (credit, [], l :: rest)
      else if credit + 1 < (l.urb.number_of_packets : Int) then (credit, [], l :: rest)
      else
        let c1 := credit - (l.urb.number_of_packets : Int)
        let c2 := if c1 < 0 then 0 else c1
        let r := heartbeat_out_release c2 rest
        (r.1, l :: r.2.1, r.2.2)

/-- The per-endpoint OUT-isochronous step of oz_hcd_heartbeat: skip the
endpoint when its credit is negative (unset); otherwise accrue credit
from the elapsed milliseconds, clamp at the ceiling and run the release
loop.  Returns the endpoint and the links released for transfer (each
is then sent to the peer and completed with status 0). -/
def heartbeat_out_step (ep : Endpoint) (delta_ms : Int) : Endpoint × List UrbLink :=
  if ep.credit < 0 then (ep, [])
  else
    let c0 := ep.credit + delta_ms
    let c1 := if c0 > ep.credit_ceiling then ep.credit_ceiling else c0
    let r := heartbeat_out_release c1 ep.urb_list
    ({ ep with credit := r.1, urb_list := r.2.2 }, r.2.1)

/-- A sequence of heartbeat ticks for one OUT-isochronous endpoint, each
with its own elapsed time. -/
def heartbeat_out_ticks (ep : Endpoint) (deltas : List Int) : Endpoint :=
  match deltas with
  | [] => ep
  | d :: ds => heartbeat_out_ticks (heartbeat_out_step ep d).1 ds

/-- Iterate the per-packet read of the IN-isochronous heartbeat loop n
times (once per iso frame descriptor of the urb), collecting for each
packet the bytes copied and the unit length. -/
def heartbeat_read_packets (ep : Endpoint) : Nat → List (List Nat × Nat) × Endpoint
  | 0 => ([], ep)
  | n + 1 =>
      let r := heartbeat_read_packet ep
      let rest := heartbeat_read_packets r.2.2 n
      ((r.1, r.2.1) :: rest.1, rest.2)

/-- The urb loop of the IN-isochronous part of oz_hcd_heartbeat: while
the queue is nonempty and enough units are buffered for the head urb,
read one unit per packet, then decrement buffered_units and credit by
the packet count, increment credit2 and start_frame, and move the urb
to the transfer list (completed with status 0 afterwards). -/
def heartbeat_in_drain (ep : Endpoint) (urbs : List UrbLink) :
    Endpoint × List UrbLink × List Urb :=
  match urbs with
  | [] => (ep, [], [])
  | l :: rest =>
      if ep.buffered_units < (l.urb.number_of_packets : Int) then (ep, l :: rest, [])
      else
        let rp := heartbeat_read_packets ep l.urb.number_of_packets
        let urb2 := { l.urb with
          transfer_buffer := (rp.1.map (fun p => p.1)).flatten,
          actual_length := (rp.1.map (fun p => p.2)).sum }
        let ep2 := { rp.2 with
          buffered_units := rp.2.buffered_units - (l.urb.number_of_packets : Int),
          credit := rp.2.credit - (l.urb.number_of_packets : Int),
          credit2 := rp.2.credit2 + (l.urb.number_of_packets : Int),
          start_frame := rp.2.start_frame + (l.urb.number_of_packets : Int) }
        let r := heartbeat_in_drain ep2 rest
        (r.1, r.2.1, urb2 :: r.2.2)

/-- The per-endpoint IN-isochronous step of oz_hcd_heartbeat.  While
buffering: leave the state alone unless buffered_units has reached
max_buffer_units, in which case buffering is cleared and the counters
reset.  Otherwise: accrue credit from elapsed time, drain complete urbs
from the queue, re-enter buffering when the buffer ran empty, and reset
the credit2 diagnostic counter when it passed 1000. -/
def heartbeat_in_step (ep : Endpoint) (delta_ms : Int) : Endpoint × List Urb :=
  if ep.buffering then
    if ep.buffered_units ≥ (ep.max_buffer_units : Int) then
      ({ ep with buffering := false, credit := 0, credit2 := 0, start_frame := 0 }, [])
    else (ep, [])
  else
    let ep1 := { ep with credit := ep.credit + delta_ms }
    let d := heartbeat_in_drain ep1 ep1.urb_list
    let ep2 : Endpoint := { d.1 with urb_list := d.2.1 }
    if ep2.buffered_units = 0 then ({ ep2 with buffering := true }, d.2.2)
    else if ep2.credit2 ≥ 1000 then ({ ep2 with credit2 := 0 }, d.2.2)
    else (ep2, d.2.2)

/-- Model of struct oz_port: presence and peer state, bus address, the
cached configuration and alternate settings, and the two endpoint
tables.  hpd models whether the peer handle is non-NULL. -/
structure Port where
  present : Bool := false
  dying : Bool := false
  hpd : Bool := false
  bus_addr : Nat := 0
  next_req_id : Nat := 0
  config_num : Nat := 0
  ifaceAlt : Nat → Nat := fun _ => 0
  out_ep : Nat → Option Endpoint := fun _ => none
  in_ep : Nat → Option Endpoint := fun _ => none

/-- Update one slot of an endpoint table. -/
def setEp (f : Nat → Option Endpoint) (i : Nat) (ep : Endpoint) : Nat → Option Endpoint :=
  fun j => if j = i then some ep else f j

/-- What oz_enqueue_ep_urb did besides returning a code: appended the
urb to the endpoint queue, completed it on the spot (with a status), or
nothing. -/
inductive EnqueueEffect where
  | queued
  | completedNow (urb : Urb) (status : Int)
  | nothingDone
  deriving Repr, DecidableEq

/-- oz_enqueue_ep_urb: queue a non-control urb on its endpoint.  The
allocOk flag models whether oz_alloc_urb_link succeeded.  An interrupt
endpoint with buffered data completes the urb synchronously from the
buffer instead of queuing; an OUT endpoint whose credit is unset gets
credit 0 when first queued; a missing peer handle gives broken pipe. -/
def oz_enqueue_ep_urb (port : Port) (ep_addr : Nat) (in_dir : Bool) (urb : Urb)
    (req_id : Nat) (allocOk : Bool) : Int × Port × EnqueueEffect :=
  if OZ_NB_ENDPOINTS ≤ ep_addr then (-EINVAL, port, .nothingDone)
  else if allocOk = false then (-ENOMEM, port, .nothingDone)
  else if urb.unlinked then (0, port, .completedNow urb 0)
  else
    match (if in_dir then port.in_ep ep_addr else port.out_ep ep_addr) with
    | none => (-EINVAL, port, .nothingDone)
    | some ep =>
      if ep.attrib % 4 = USB_ENDPOINT_XFER_INT ∧ ep.buffered_units > 0 then
        let r := oz_complete_buffered_urb ep urb
        let port2 := if in_dir then { port with in_ep := setEp port.in_ep ep_addr r.2 }
                     else { port with out_ep := setEp port.out_ep ep_addr r.2 }
        (0, port2, .completedNow r.1 0)
      else if port.hpd then
        let ep2 := { ep with
          urb_list := ep.urb_list ++ [{ urb := urb, req_id := req_id, ep_num := ep_addr }],
          credit := if in_dir = false ∧ ep_addr ≠ 0 ∧ ep.credit < 0 then 0 else ep.credit }
        let port2 := if in_dir then { port with in_ep := setEp port.in_ep ep_addr ep2 }
                     else { port with out_ep := setEp port.out_ep ep_addr ep2 }
        (0, port2, .queued)
      else (-EPIPE, port, .nothingDone)

/-- Model of struct oz_hcd together with the running state of the
enclosing usb_hcd. -/
structure OzHcd where
  hcd_running : Bool := true
  conn_port : Int := -1
  ports : Nat → Port := fun _ => {}
  urb_pending_list : List Urb := []

/-- Replace one port of the controller. -/
def updPort (h : OzHcd) (i : Nat) (p : Port) : OzHcd :=
  { h with ports := fun j => if j = i then p else h.ports j }

/-- oz_get_port_from_addr: index of the first port with the given bus
address; for address 0 the connection port (possibly -1); -1 when no
port matches. -/
def oz_get_port_from_addr (h : OzHcd) (bus_addr : Nat) : Int :=
  if bus_addr ≠ 0 then
    match (List.range OZ_NB_PORTS).find? (fun i => (h.ports i).bus_addr == bus_addr) with
    | some i => (i : Int)
    | none => -1
  else h.conn_port

/-- oz_hcd_urb_enqueue: the submission entry point.  allocOk models
oz_alloc_urb_link, link_rc the return of usb_hcd_link_urb_to_ep.  On
success the urb is appended to the pending-submission list for the
tasklet; every failure returns synchronously with the list unchanged. -/
def oz_hcd_urb_enqueue (h : OzHcd) (urb : Urb) (allocOk : Bool) (link_rc : Int) :
    Int × OzHcd :=
  if h.hcd_running = false then (-ENODEV, h)
  else
    let port_ix := oz_get_port_from_addr h urb.pipe_device
    if port_ix < 0 then (-ENODEV, h)
    else if (h.ports port_ix.toNat).present = false then (-ENODEV, h)
    else if allocOk = false then (-ENOMEM, h)
    else if link_rc ≠ 0 then (link_rc, h)
    else (0, { h with urb_pending_list := h.urb_pending_list ++ [urb] })

/-- USB standard request and type constants used by the ep0 switch. -/
def USB_TYPE_MASK : Nat := 96
def USB_DIR_IN : Nat := 128
def USB_REQ_SET_ADDRESS : Nat := 5
def USB_REQ_GET_DESCRIPTOR : Nat := 6
def USB_REQ_GET_CONFIGURATION : Nat := 8
def USB_REQ_SET_CONFIGURATION : Nat := 9
def USB_REQ_GET_INTERFACE : Nat := 10
def USB_REQ_SET_INTERFACE : Nat := 11

/-- Outcome of oz_process_ep0_urb: either the urb was completed on the
spot with a status, or it was forwarded to the peer (and queued on the
endpoint-0 OUT queue) under a request correlation id, with a heartbeat
requested. -/
inductive Ep0Outcome where
  | completed (urb : Urb) (status : Int)
  | queuedToPeer (req_id : Nat)
  deriving Repr, DecidableEq

/-- oz_process_ep0_urb: the control-request state machine.  ctrlOk
models success of oz_usb_control_req, allocOk success of the link
allocation inside oz_enqueue_ep_urb.  SET_ADDRESS writes the requested
address to the current connection port (when there is one) and clears
the connection-port slot, then completes with success; GET_CONFIGURATION
and GET_INTERFACE are answered from the cached state; everything else is
forwarded to the peer. -/
def oz_process_ep0_urb (h : OzHcd) (urb : Urb) (ctrlOk allocOk : Bool) :
    Ep0Outcome × OzHcd :=
  let port_ix := oz_get_port_from_addr h urb.pipe_device
  if port_ix < 0 then (.completed urb (-EPIPE), h)
  else
    let pix := port_ix.toNat
    let port := h.ports pix
    if port.present = false ∨ port.dying = true then (.completed urb (-EPIPE), h)
    else
      let req_id := port.next_req_id
      let h1 := updPort h pix { port with next_req_id := (port.next_req_id + 1) % 256 }
      if port.hpd = false then (.completed urb (-EPIPE), h1)
      else
        let setup := urb.setup
        -- rc, complete, updated state and urb after the standard-request switch
        let afterSwitch : Int × Bool × OzHcd × Urb :=
          if setup.bRequestType &&& USB_TYPE_MASK = 0 then
            if setup.bRequest = USB_REQ_SET_ADDRESS then
              let h2 :=
                if h1.conn_port ≥ 0 then
                  let c := h1.conn_port.toNat
                  { updPort h1 c { h1.ports c with bus_addr := setup.wValue % 256 }
                    with conn_port := -1 }
                else h1
              (0, true, h2, urb)
            else if setup.bRequest = USB_REQ_GET_CONFIGURATION then
              if 1 ≤ urb.transfer_buffer_length then
                (0, true, h1, { urb with actual_length := 1,
                                         transfer_buffer := [port.config_num] })
              else (-EPIPE, false, h1, urb)
            else if setup.bRequest = USB_REQ_GET_INTERFACE then
              if 1 ≤ urb.transfer_buffer_length then
                (0, true, h1, { urb with actual_length := 1,
                                         transfer_buffer := [port.ifaceAlt (setup.wIndex % 256)] })
              else (-EPIPE, false, h1, urb)
            else (0, false, h1, urb)
          else (0, false, h1, urb)
        let rc := afterSwitch.1
        let complete := afterSwitch.2.1
        let h2 := afterSwitch.2.2.1
        let urb2 := afterSwitch.2.2.2
        if rc = 0 ∧ complete = false then
          let data_len := if setup.bRequestType &&& USB_DIR_IN = 0 then setup.wLength else 0
          let urb3 := { urb2 with actual_length := data_len }
          if ctrlOk = false then (.completed urb3 (-ENOMEM), h2)
          else
            let e := oz_enqueue_ep_urb (h2.ports pix) 0 false urb3 req_id allocOk
            if e.1 ≠ 0 then (.completed urb3 (-ENOMEM), h2)
            else (.queuedToPeer req_id, updPort h2 pix e.2.1)
        else (.completed urb2 rc, h2)

/-- oz_urb_process: the per-urb body of the submission tasklet.  pix is
the port recorded on the urb at submission (urb hcpriv).  A non-control
urb is handed to oz_enqueue_ep_urb and any error from it is turned into
-ENOENT; a control urb goes through the ep0 state machine.  The third
component collects completions performed inside (urb, status). -/
def oz_urb_process (h : OzHcd) (pix : Nat) (urb : Urb) (allocOk ctrlOk : Bool) :
    Int × OzHcd × List (Urb × Int) :=
  if urb.transfer_buffer_null = true ∧ urb.transfer_buffer_length ≠ 0 then (-EINVAL, h, [])
  else if (h.ports pix).present = false then (-ENODEV, h, [])
  else
    let ep_addr := urb.pipe_endpoint
    if ep_addr ≠ 0 then
      let r := oz_enqueue_ep_urb (h.ports pix) ep_addr urb.pipe_in urb 0 allocOk
      let h2 := updPort h pix r.2.1
      let comps := match r.2.2 with
                   | .completedNow u s => [(u, s)]
                   | _ => []
      if r.1 ≠ 0 then (-ENOENT, h2, comps) else (0, h2, comps)
    else
      match oz_process_ep0_urb h urb ctrlOk allocOk with
      | (.completed u s, h2) => (0, h2, [(u, s)])
      | (.queuedToPeer _, h2) => (0, h2, [])

/-- One iteration of oz_urb_process_tasklet for one pending urb: run
oz_urb_process and, when it returns an error, complete the urb with
that error.  Returns the new state and every completion delivered. -/
def oz_urb_process_one (h : OzHcd) (pix : Nat) (urb : Urb) (allocOk ctrlOk : Bool) :
    OzHcd × List (Urb × Int) :=
  let r := oz_urb_process h pix urb allocOk ctrlOk
  if r.1 ≠ 0 then (r.2.1, r.2.2 ++ [(urb, r.1)]) else (r.2.1, r.2.2)

/-! Derived quantities used to state the claims. -/
/-- A unit as stored in the ring: one length byte, then the payload. -/
def encodeUnit (u : List Nat) : List Nat := u.length :: u

/-- The byte stream held by the ring for a queue of units. -/
def encodeUnits (q : List (List Nat)) : List Nat := (q.map encodeUnit).flatten

/-- The ring buffer of ep holds exactly the units q, laid out circularly
starting at the read cursor: the write cursor sits at the end of the
encoded stream, each stream byte is in its circular cell, every unit
length fits the one-byte prefix, and buffered_units counts the units. -/
def ringRep (ep : Endpoint) (q : List (List Nat)) : Prop :=
  ep.hasBuffer = true ∧
  ep.out_ix < ep.buffer_size ∧
  ep.in_ix < ep.buffer_size ∧
  (encodeUnits q).length < ep.buffer_size ∧
  ep.in_ix = (ep.out_ix + (encodeUnits q).length) % ep.buffer_size ∧
  (∀ i, i < (encodeUnits q).length →
    ep.buffer ((ep.out_ix + i) % ep.buffer_size) = (encodeUnits q).getD i 0) ∧
  (∀ u, u ∈ q → u.length < 256) ∧
  ep.buffered_units = (q.length : Int)

instance ringRepDecidable (ep : Endpoint) (q : List (List Nat)) :
    Decidable (ringRep ep q) := by
  unfold ringRep
  infer_instance

/-- Write a sequence of units with oz_hcd_buffer_data, stopping at the
first failure; 0 means every write succeeded. -/
def writeUnits (ep : Endpoint) (q : List (List Nat)) : Int × Endpoint :=
  match q with
  | [] => (0, ep)
  | u :: rest =>
      let r := oz_hcd_buffer_data ep u
      if r.1 ≠ 0 then (r.1, r.2) else writeUnits r.2 rest

/-- Read n units back with oz_complete_buffered_urb, each into a fresh
urb with the given transfer_buffer_length, collecting for each the
bytes delivered and the reported actual_length. -/
def readUnitsBack (ep : Endpoint) (tbl : Nat) : Nat → List (List Nat × Nat) × Endpoint
  | 0 => ([], ep)
  | n + 1 =>
      let r := oz_complete_buffered_urb ep { transfer_buffer_length := tbl }
      let rest := readUnitsBack r.2 tbl n
      ((r.1.transfer_buffer, r.1.actual_length) :: rest.1, rest.2)

/-- The circular distance out_ix - in_ix - 1 modulo buffer_size, the
formulation of free space used by the specification. -/
def ringSpace (ep : Endpoint) : Int :=
  ((ep.out_ix : Int) - (ep.in_ix : Int) - 1) % (ep.buffer_size : Int)

/-- Both ring cursors lie inside the buffer (they are Nat, so the lower
bound 0 of the claimed invariant is implicit). -/
def cursorsInRange (ep : Endpoint) : Prop :=
  ep.in_ix < ep.buffer_size ∧ ep.out_ix < ep.buffer_size

instance cursorsInRangeDecidable (ep : Endpoint) : Decidable (cursorsInRange ep) := by
  unfold cursorsInRange
  infer_instance

/-- A freshly built interrupt-endpoint ring (OZ_EP_BUFFER_SIZE_INT
cells, cursors at 0), used to exhibit the length-truncation behaviour. -/
def epC2cx : Endpoint := { hasBuffer := true, buffer_size := 512 }

/-- A small ring whose cursors start near the end, so that writes wrap
past the buffer boundary. -/
def epC2w : Endpoint := { hasBuffer := true, buffer_size := 8, in_ix := 5, out_ix := 5 }

/-- A concrete ring state with two bytes of free space. -/
def epC8w : Endpoint := { hasBuffer := true, buffer_size := 8, in_ix := 2, out_ix := 5,
                          buffer := fun i => if i = 5 then 3 else 0 }

/-- A freshly built IN isochronous endpoint as oz_build_endpoints
creates it: buffering set, empty ring, credit unset; and one queued
one-packet urb.  The small ring (8 cells, max 2 units) makes the
overflow path reachable in a short trace. -/
def epC4 : Endpoint :=
  { hasBuffer := true, buffer_size := 8, max_buffer_units := 2, buffering := true,
    attrib := 1, credit := -1,
    urb_list := [{ urb := { number_of_packets := 1, transfer_buffer_length := 8 } }] }

/-- epC4 after buffering two units and one heartbeat: buffering is
cleared (units reached the maximum). -/
def epC4s3 : Endpoint :=
  (heartbeat_in_step (oz_hcd_data_ind_isoc (oz_hcd_data_ind_isoc epC4 [7]) [9]) 0).1

/-- epC4s3 after a second heartbeat that drains one unit: buffering is
still clear and one unit remains. -/
def epC4s4 : Endpoint := (heartbeat_in_step epC4s3 0).1

/-- epC4s4 after a data indication whose write overflows the ring. -/
def epC4s5 : Endpoint := oz_hcd_data_ind_isoc epC4s4 [1, 2, 3, 4, 5]

/-- A queued isochronous urb of two packets. -/
def urblC3 : UrbLink := { urb := { number_of_packets := 2, pipe_isoc := true } }

/-- An active OUT isochronous endpoint: credit 3, the ceiling the
driver assigns (200), one two-packet urb queued. -/
def epC3w : Endpoint :=
  { attrib := 1, credit := 3, credit_ceiling := 200, urb_list := [urblC3] }

/-- A concrete ring state (all cells below the buffer size) with one
queued urb of one packet, used to exercise every ring operation. -/
def epC10w : Endpoint :=
  { hasBuffer := true, buffer_size := 8, in_ix := 4, out_ix := 0, buffered_units := 1,
    max_buffer_units := 2,
    buffer := fun i => if i = 0 then 3 else if i = 1 then 1 else if i = 2 then 2
                       else if i = 3 then 3 else 0,
    urb_list := [{ urb := { number_of_packets := 1, transfer_buffer_length := 8 } }] }

/-- A concrete ring state holding one 3-byte unit starting at the read
cursor. -/
def epC9w : Endpoint :=
  { hasBuffer := true, buffer_size := 8, in_ix := 4, out_ix := 0, buffered_units := 1,
    buffer := fun i => if i = 0 then 3 else if i = 1 then 7 else if i = 2 then 8
                       else if i = 3 then 9 else 0 }

/-- A controller whose port 0 carries bus address 5 but is not marked
present. -/
def hcdC1 : OzHcd :=
  { ports := fun i => if i = 0 then { bus_addr := 5 } else {} }

/-- An urb addressed to bus address 5. -/
def urbC1 : Urb := { pipe_device := 5 }

/-- A controller whose port 0 is present with a peer attached
(bus address 5) and port 1 present as well. -/
def hcdC5 : OzHcd :=
  { ports := fun i => if i = 0 then { present := true, hpd := true, bus_addr := 5 }
             else {} }

/-- A non-control urb (endpoint 1, OUT). -/
def urbC5 : Urb := { pipe_endpoint := 1 }

/-- A controller mid-enumeration: port 1 is the connection port, while
port 0 is an already-addressed present port (bus address 5). -/
def hcdC6 : OzHcd :=
  { conn_port := 1,
    ports := fun i =>
      if i = 0 then { present := true, hpd := true, bus_addr := 5 }
      else if i = 1 then { present := true, hpd := true } else {} }

/-- A SET_ADDRESS request for address 9 sent to the device at bus
address 5 (which is not the connection port). -/
def urbC6 : Urb :=
  { pipe_device := 5, setup := { bRequestType := 0, bRequest := 5, wValue := 9 } }

/-- An interrupt IN endpoint with one buffered 2-byte unit. -/
def epC7 : Endpoint :=
  { attrib := 3, hasBuffer := true, buffer_size := 8, in_ix := 3, out_ix := 0,
    buffered_units := 1,
    buffer := fun i => if i = 0 then 2 else if i = 1 then 4 else if i = 2 then 5 else 0 }

/-- A port carrying epC7 as IN endpoint 1, with a peer attached. -/
def portC7 : Port :=
  { present := true, hpd := true, in_ep := fun i => if i = 1 then some epC7 else none }

/-- An IN urb for endpoint 1 with an 8-byte buffer. -/
def urbC7 : Urb := { pipe_endpoint := 1, pipe_in := true, transfer_buffer_length := 8 }

/-! Basic lemmas about the linear copy helpers. -/

theorem writeBytes_lt (buf : Nat → Nat) (start : Nat) (data : List Nat) (i : Nat)
    (h : i < start) : writeBytes buf start data i = buf i := by
  simp only [writeBytes]
  rw [if_neg]
  omega

theorem writeBytes_ge (buf : Nat → Nat) (start : Nat) (data : List Nat) (i : Nat)
    (h : start + data.length ≤ i) : writeBytes buf start data i = buf i := by
  simp only [writeBytes]
  rw [if_neg]
  omega

theorem writeBytes_get (buf : Nat → Nat) (start : Nat) (data : List Nat) (j : Nat)
    (h : j < data.length) : writeBytes buf start data (start + j) = data.getD j 0 := by
  simp only [writeBytes]
  rw [if_pos (by omega)]
  congr 1
  omega

theorem readBytes_length (buf : Nat → Nat) (start len : Nat) :
    (readBytes buf start len).length = len := by
  simp [readBytes]

theorem readBytes_getD (buf : Nat → Nat) (start len j : Nat) (h : j < len) :
    (readBytes buf start len).getD j 0 = buf (start + j) := by
  have h1 : j < (readBytes buf start len).length := by rw [readBytes_length]; exact h
  rw [List.getD_eq_getElem _ _ h1]
  simp [readBytes]

/-- The wrap-to-zero increment of a cursor equals the modular increment. -/
theorem wrapSucc (a n : Nat) (h : a < n) :
    (if a + 1 = n then 0 else a + 1) = (a + 1) % n := by
  by_cases he : a + 1 = n
  · rw [if_pos he, he, Nat.mod_self]
  · rw [if_neg he, Nat.mod_eq_of_lt (by omega)]

/-- Dropping an inner mod under two further addends. -/
theorem mod_shift (n a b c : Nat) : (a % n + b + c) % n = (a + b + c) % n := by
  rw [Nat.add_assoc, Nat.mod_add_mod, ← Nat.add_assoc]

/-- Cancellation of equal residues at a common offset. -/
theorem mod_add_cancel (n a b c : Nat) (hb : b < n) (hc : c < n)
    (h : (a + b) % n = (a + c) % n) : b = c := by
  have h2 : b ≡ c [MOD n] := Nat.ModEq.add_left_cancel' a h
  have h3 : b % n = c % n := h2
  rwa [Nat.mod_eq_of_lt hb, Nat.mod_eq_of_lt hc] at h3

/-- The conditional-add space computation of the code equals the
modular circular distance of the specification. -/
theorem codeSpace_eq_ringSpace (ep : Endpoint)
    (hin : ep.in_ix < ep.buffer_size) (hout : ep.out_ix < ep.buffer_size) :
    codeSpace ep = ringSpace ep := by
  have hsz : (0 : Int) < (ep.buffer_size : Int) := by
    have : 0 < ep.buffer_size := by omega
    exact_mod_cast this
  simp only [codeSpace, ringSpace]
  set s0 : Int := (ep.out_ix : Int) - (ep.in_ix : Int) - 1 with hs0
  by_cases hneg : s0 < 0
  · rw [if_pos hneg]
    have h1 : s0 % (ep.buffer_size : Int) = (s0 + ep.buffer_size) % (ep.buffer_size : Int) := by
      rw [show s0 + (ep.buffer_size : Int) = s0 + (ep.buffer_size : Int) * 1 by ring]
      rw [Int.add_mul_emod_self_left]
    rw [h1, Int.emod_eq_of_lt (by omega) (by omega)]
  · rw [if_neg hneg]
    rw [Int.emod_eq_of_lt (by omega) (by omega)]

/-- codeSpace is between 0 and buffer_size - 1 when the cursors are in
range. -/
theorem codeSpace_bounds (ep : Endpoint)
    (hin : ep.in_ix < ep.buffer_size) (hout : ep.out_ix < ep.buffer_size) :
    0 ≤ codeSpace ep ∧ codeSpace ep ≤ (ep.buffer_size : Int) - 1 := by
  simp only [codeSpace]
  constructor <;> [skip; skip] <;> split <;> omega

/-- When the space check fails, oz_hcd_buffer_data returns -1 and the
endpoint is unchanged. -/
theorem buffer_data_fail (ep : Endpoint) (data : List Nat)
    (h : codeSpace ep < (data.length : Int) + 1) :
    oz_hcd_buffer_data ep data = (-1, ep) := by
  unfold oz_hcd_buffer_data
  by_cases hb : ep.hasBuffer = false
  · rw [if_pos hb]
  · rw [if_neg hb, if_pos (by exact_mod_cast h)]

/-- When the buffer is missing, oz_hcd_buffer_data returns -1 and the
endpoint is unchanged. -/
theorem buffer_data_nobuf (ep : Endpoint) (data : List Nat)
    (h : ep.hasBuffer = false) :
    oz_hcd_buffer_data ep data = (-1, ep) := by
  unfold oz_hcd_buffer_data
  rw [if_pos h]

/-- Full characterization of a successful oz_hcd_buffer_data: it stores
the (truncated) length prefix at the old write cursor, the data bytes
in the following circular positions, advances the write cursor by
1 + data length modulo buffer_size, increments buffered_units, and
leaves the read cursor and every other cell alone. -/
theorem buffer_data_ok (ep : Endpoint) (data : List Nat)
    (hb : ep.hasBuffer = true)
    (hin : ep.in_ix < ep.buffer_size) (hout : ep.out_ix < ep.buffer_size)
    (hsp : (data.length : Int) + 1 ≤ codeSpace ep) :
    (oz_hcd_buffer_data ep data).1 = 0 ∧
    (oz_hcd_buffer_data ep data).2.hasBuffer = ep.hasBuffer ∧
    (oz_hcd_buffer_data ep data).2.buffer_size = ep.buffer_size ∧
    (oz_hcd_buffer_data ep data).2.out_ix = ep.out_ix ∧
    (oz_hcd_buffer_data ep data).2.buffered_units = ep.buffered_units + 1 ∧
    (oz_hcd_buffer_data ep data).2.in_ix = (ep.in_ix + 1 + data.length) % ep.buffer_size ∧
    (oz_hcd_buffer_data ep data).2.buffer ep.in_ix = data.length % 256 ∧
    (∀ j, j < data.length →
      (oz_hcd_buffer_data ep data).2.buffer ((ep.in_ix + 1 + j) % ep.buffer_size)
        = data.getD j 0) ∧
    (∀ i, (∀ j, j < data.length + 1 → i ≠ (ep.in_ix + j) % ep.buffer_size) →
      (oz_hcd_buffer_data ep data).2.buffer i = ep.buffer i) := by
  have hbne : ¬ (ep.hasBuffer = false) := by rw [hb]; simp
  have hcb := codeSpace_bounds ep hin hout
  have hL2 : data.length + 2 ≤ ep.buffer_size := by omega
  have hsz : 0 < ep.buffer_size := by omega
  unfold oz_hcd_buffer_data
  rw [if_neg hbne, if_neg (by omega)]
  simp only
  set sz := ep.buffer_size with hszdef
  set a := ep.in_ix with hadef
  set L := data.length with hLdef
  set buf1 : Nat → Nat := fun i => if i = a then L % 256 else ep.buffer i with hbuf1
  have hbuf1a : buf1 a = L % 256 := by rw [hbuf1]; simp
  have hbuf1ne : ∀ i, i ≠ a → buf1 i = ep.buffer i := by
    intro i hi; rw [hbuf1]; simp [hi]
  set in1 := if a + 1 = sz then 0 else a + 1 with hin1def
  have hin1 : in1 = (a + 1) % sz := wrapSucc a sz hin
  have hin1lt : in1 < sz := by rw [hin1]; exact Nat.mod_lt _ hsz
  set copy_len0 := sz - in1 with hcl0
  set copy_len := if copy_len0 > L then L else copy_len0 with hcl
  have htake : (data.take copy_len).length = copy_len := by
    rw [List.length_take]; rw [hcl]; split <;> omega
  have hcle : copy_len ≤ L := by rw [hcl]; split <;> omega
  by_cases hwrap : copy_len < L
  · -- wrap case: copy_len = sz - in1, second memcpy from position 0
    have hcl0le : ¬ (copy_len0 > L) := by
      by_contra hgt
      rw [hcl, if_pos hgt] at hwrap
      omega
    have hclv : copy_len = sz - in1 := by rw [hcl, if_neg hcl0le]
    have hin1v : in1 = a + 1 := by
      rcases Nat.lt_or_ge (a + 1) sz with h1 | h1
      · rw [hin1, Nat.mod_eq_of_lt h1]
      · exfalso
        have : a + 1 = sz := by omega
        rw [hin1def, if_pos this] at hclv
        omega
    have hdrop : (data.drop copy_len).length = L - copy_len := by
      rw [List.length_drop]
    rw [if_pos hwrap, if_pos hwrap]
    refine ⟨trivial, trivial, trivial, trivial, trivial, ?_, ?_, ?_, ?_⟩
    · -- cursor: L - copy_len, and (a + 1 + L) % sz = L - copy_len
      rw [if_neg (by omega)]
      have : a + 1 + L = sz + (L - copy_len) := by omega
      rw [this, Nat.add_mod_left, Nat.mod_eq_of_lt (by omega)]
    · -- prefix cell
      rw [writeBytes_ge _ _ _ _ (by rw [hdrop]; omega),
          writeBytes_lt _ _ _ _ (by omega), hbuf1a]
    · -- data cells
      intro j hj
      rcases Nat.lt_or_ge j copy_len with hjc | hjc
      · have hidx : (a + 1 + j) % sz = in1 + j := by
          rw [hin1v, Nat.mod_eq_of_lt (by omega)]
        rw [hidx, writeBytes_ge _ _ _ _ (by rw [hdrop]; omega)]
        have := writeBytes_get buf1 in1 (data.take copy_len) j (by rw [htake]; omega)
        rw [this, List.getD_eq_getElem _ _ (by rw [htake]; omega),
            List.getElem_take, ← List.getD_eq_getElem _ _ (by omega)]
      · have hidx : (a + 1 + j) % sz = j - copy_len := by
          have : a + 1 + j = sz + (j - copy_len) := by omega
          rw [this, Nat.add_mod_left, Nat.mod_eq_of_lt (by omega)]
        rw [hidx]
        have h2 := writeBytes_get (writeBytes buf1 in1 (data.take copy_len)) 0
          (data.drop copy_len) (j - copy_len) (by rw [hdrop]; omega)
        rw [Nat.zero_add] at h2
        rw [h2, List.getD_eq_getElem _ _ (by rw [hdrop]; omega),
            List.getElem_drop, ← List.getD_eq_getElem _ _ (by omega)]
        congr 1
        omega
    · -- untouched cells
      intro i hi
      have hne_a : i ≠ a := by
        have := hi 0 (by omega)
        rwa [Nat.add_zero, Nat.mod_eq_of_lt (by omega)] at this
      have hnr1 : i < in1 ∨ sz ≤ i := by
        by_contra hcon
        push_neg at hcon
        have hj : i - in1 < copy_len := by omega
        have := hi (i - in1 + 1) (by omega)
        apply this
        rw [show a + (i - in1 + 1) = in1 + (i - in1) by omega,
            Nat.mod_eq_of_lt (by omega)]
        omega
      have hnr2 : L - copy_len ≤ i := by
        by_contra hcon
        push_neg at hcon
        have := hi (copy_len + i + 1) (by omega)
        apply this
        rw [show a + (copy_len + i + 1) = sz + i by omega,
            Nat.add_mod_left, Nat.mod_eq_of_lt (by omega)]
      rw [writeBytes_ge _ _ _ _ (by rw [hdrop]; omega)]
      rcases hnr1 with h1 | h1
      · rw [writeBytes_lt _ _ _ _ h1, hbuf1ne i hne_a]
      · rw [writeBytes_ge _ _ _ _ (by rw [htake]; omega), hbuf1ne i hne_a]
  · -- no-wrap case: a single memcpy suffices
    have hclv : copy_len = L := by omega
    have hfit : in1 + L ≤ sz := by
      rw [hcl] at hclv
      by_cases hgt : copy_len0 > L
      · omega
      · rw [if_neg hgt] at hclv; omega
    rw [if_neg hwrap, if_neg hwrap]
    refine ⟨trivial, trivial, trivial, trivial, trivial, ?_, ?_, ?_, ?_⟩
    · -- cursor: in1 + copy_len with wrap to zero
      rw [hclv]
      have h1 : (a + 1 + L) % sz = (in1 + L) % sz := by
        rw [hin1, Nat.mod_add_mod]
      rw [h1]
      by_cases he : in1 + L = sz
      · rw [if_pos he, he, Nat.mod_self]
      · rw [if_neg he, Nat.mod_eq_of_lt (by omega)]
    · -- prefix cell
      have hcase : a < in1 ∨ in1 + L ≤ a := by
        rcases Nat.lt_or_ge (a + 1) sz with h1 | h1
        · left; rw [hin1, Nat.mod_eq_of_lt h1]; omega
        · right
          have ha1 : a + 1 = sz := by omega
          have : in1 = 0 := by rw [hin1, ha1, Nat.mod_self]
          omega
      rcases hcase with h1 | h1
      · rw [writeBytes_lt _ _ _ _ h1, hbuf1a]
      · rw [writeBytes_ge _ _ _ _ (by rw [htake]; omega), hbuf1a]
    · -- data cells
      intro j hj
      have hidx : (a + 1 + j) % sz = in1 + j := by
        rw [← Nat.mod_add_mod, ← hin1, Nat.mod_eq_of_lt (by omega)]
      rw [hidx]
      have := writeBytes_get buf1 in1 (data.take copy_len) j (by rw [htake]; omega)
      rw [this, List.getD_eq_getElem _ _ (by rw [htake]; omega),
          List.getElem_take, ← List.getD_eq_getElem _ _ (by omega)]
    · -- untouched cells
      intro i hi
      have hne_a : i ≠ a := by
        have := hi 0 (by omega)
        rwa [Nat.add_zero, Nat.mod_eq_of_lt (by omega)] at this
      have hnr : i < in1 ∨ in1 + L ≤ i := by
        by_contra hcon
        push_neg at hcon
        have := hi (i - in1 + 1) (by omega)
        apply this
        rw [show a + (i - in1 + 1) = (a + 1) + (i - in1) by omega,
            ← Nat.mod_add_mod, ← hin1, Nat.mod_eq_of_lt (by omega)]
        omega
      rcases hnr with h1 | h1
      · rw [writeBytes_lt _ _ _ _ h1, hbuf1ne i hne_a]
      · rw [writeBytes_ge _ _ _ _ (by rw [htake]; omega), hbuf1ne i hne_a]

/-- Core lemma for the three unit-read operations: the split copy
(first memcpy up to the buffer end, second from position 0) together
with the cursor updates amounts to a circular read of av bytes starting
one past the read cursor, with the cursor advancing by 1 + av modulo
buffer_size. -/
theorem circ_read_char (buf : Nat → Nat) (sz out av o1 copy_len : Nat)
    (hout : out < sz) (hav : av < sz)
    (ho1 : o1 = (out + 1) % sz)
    (hc : copy_len = min (sz - o1) av) :
    ((if (if copy_len < av then av - copy_len else o1 + copy_len) = sz then 0
      else (if copy_len < av then av - copy_len else o1 + copy_len))
        = (out + 1 + av) % sz) ∧
    (if copy_len < av
     then readBytes buf o1 copy_len ++ readBytes buf 0 (av - copy_len)
     else readBytes buf o1 copy_len).length = av ∧
    (∀ j, j < av →
      (if copy_len < av
       then readBytes buf o1 copy_len ++ readBytes buf 0 (av - copy_len)
       else readBytes buf o1 copy_len).getD j 0 = buf ((out + 1 + j) % sz)) := by
  have hsz : 0 < sz := by omega
  have ho1lt : o1 < sz := by rw [ho1]; exact Nat.mod_lt _ hsz
  have hidx : ∀ j, j < av → (out + 1 + j) % sz =
      (if j < sz - o1 then o1 + j else j - (sz - o1)) := by
    intro j hj
    by_cases hjj : j < sz - o1
    · rw [if_pos hjj, ← Nat.mod_add_mod, ← ho1, Nat.mod_eq_of_lt (by omega)]
    · rw [if_neg hjj, ← Nat.mod_add_mod, ← ho1,
        show o1 + j = sz + (j - (sz - o1)) by omega,
        Nat.add_mod_left, Nat.mod_eq_of_lt (by omega)]
  by_cases hwrap : copy_len < av
  · -- the unit wraps past the end of the buffer
    have hclv : copy_len = sz - o1 := by
      rcases Nat.le_total (sz - o1) av with h1 | h1
      · rw [hc, Nat.min_eq_left h1]
      · rw [hc, Nat.min_eq_right h1] at hwrap ⊢
        omega
    refine ⟨?_, ?_, ?_⟩
    · rw [if_pos hwrap, if_neg (by omega), ← Nat.mod_add_mod, ← ho1,
        show o1 + av = sz + (av - copy_len) by omega,
        Nat.add_mod_left, Nat.mod_eq_of_lt (by omega)]
    · rw [if_pos hwrap]
      rw [List.length_append, readBytes_length, readBytes_length]
      omega
    · intro j hj
      rw [if_pos hwrap, hidx j hj]
      by_cases hjj : j < sz - o1
      · rw [if_pos hjj, List.getD_append _ _ _ _ (by rw [readBytes_length]; omega),
          readBytes_getD _ _ _ _ (by omega)]
      · rw [if_neg hjj,
          List.getD_append_right _ _ _ _ (by rw [readBytes_length]; omega)]
        rw [readBytes_length, readBytes_getD _ _ _ _ (by omega), Nat.zero_add, hclv]
  · -- the unit fits without wrapping
    have hclv : copy_len = av := by
      rcases Nat.le_total (sz - o1) av with h1 | h1
      · rw [hc, Nat.min_eq_left h1] at hwrap ⊢
        omega
      · rw [hc, Nat.min_eq_right h1]
    have hfit : o1 + av ≤ sz := by
      rw [hc] at hclv
      rcases Nat.le_total (sz - o1) av with h1 | h1
      · rw [Nat.min_eq_left h1] at hclv
        omega
      · omega
    refine ⟨?_, ?_, ?_⟩
    · rw [if_neg hwrap, hclv, ← Nat.mod_add_mod, ← ho1]
      by_cases he : o1 + av = sz
      · rw [if_pos he, he, Nat.mod_self]
      · rw [if_neg he, Nat.mod_eq_of_lt (by omega)]
    · rw [if_neg hwrap, readBytes_length, hclv]
    · intro j hj
      rw [if_neg hwrap, readBytes_getD _ _ _ _ (by omega), hidx j hj, if_pos (by omega)]

/-- Characterization of oz_complete_buffered_urb: with av the minimum of
the stored unit length and the urb buffer length, exactly av bytes are
copied (circularly, starting one past the read cursor), actual_length is
set to av, and the endpoint changes only by advancing the read cursor
1 + av positions modulo buffer_size and decrementing buffered_units. -/
theorem complete_buffered_char (ep : Endpoint) (urb : Urb)
    (hout : ep.out_ix < ep.buffer_size)
    (hlen : ep.buffer ep.out_ix < ep.buffer_size) :
    (oz_complete_buffered_urb ep urb).1.actual_length
        = min (ep.buffer ep.out_ix) urb.transfer_buffer_length ∧
    (oz_complete_buffered_urb ep urb).1.transfer_buffer.length
        = min (ep.buffer ep.out_ix) urb.transfer_buffer_length ∧
    (∀ j, j < min (ep.buffer ep.out_ix) urb.transfer_buffer_length →
      (oz_complete_buffered_urb ep urb).1.transfer_buffer.getD j 0
        = ep.buffer ((ep.out_ix + 1 + j) % ep.buffer_size)) ∧
    (oz_complete_buffered_urb ep urb).2
        = { ep with
            out_ix := (ep.out_ix + 1
              + min (ep.buffer ep.out_ix) urb.transfer_buffer_length) % ep.buffer_size,
            buffered_units := ep.buffered_units - 1 } := by
  have hsz : 0 < ep.buffer_size := by omega
  unfold oz_complete_buffered_urb
  simp only
  set sz := ep.buffer_size with hszdef
  set out := ep.out_ix with houtdef
  set len := ep.buffer out with hlendef
  set tbl := urb.transfer_buffer_length with htbldef
  set av := if len ≤ tbl then len else tbl with havdef
  have havmin : av = min len tbl := by rw [havdef, min_def]
  have havle : av ≤ len := by rw [havdef]; split <;> omega
  have hav : av < sz := by omega
  set o1 := if out + 1 = sz then 0 else out + 1 with ho1def
  have ho1 : o1 = (out + 1) % sz := wrapSucc out sz hout
  set copy_len0 := sz - o1 with hcl0def
  set copy_len := if copy_len0 ≥ av then av else copy_len0 with hcldef
  have hc : copy_len = min (sz - o1) av := by
    rw [hcldef, Nat.min_def]
    split <;> split <;> omega
  obtain ⟨h1, h2, h3⟩ := circ_read_char ep.buffer sz out av o1 copy_len hout hav ho1 hc
  refine ⟨havmin, ?_, ?_, ?_⟩
  · rw [← havmin]
    exact h2
  · intro j hj
    rw [← havmin] at hj
    exact h3 j hj
  · rw [← havmin, ← h1]

/-- Characterization of the per-packet read of the IN-isochronous
heartbeat loop: it returns the unit bytes (full stored length) and
advances the read cursor 1 + length positions modulo buffer_size,
leaving everything else unchanged. -/
theorem read_packet_char (ep : Endpoint)
    (hout : ep.out_ix < ep.buffer_size)
    (hlen : ep.buffer ep.out_ix < ep.buffer_size) :
    (heartbeat_read_packet ep).2.1 = ep.buffer ep.out_ix ∧
    (heartbeat_read_packet ep).1.length = ep.buffer ep.out_ix ∧
    (∀ j, j < ep.buffer ep.out_ix →
      (heartbeat_read_packet ep).1.getD j 0
        = ep.buffer ((ep.out_ix + 1 + j) % ep.buffer_size)) ∧
    (heartbeat_read_packet ep).2.2
        = { ep with
            out_ix := (ep.out_ix + 1 + ep.buffer ep.out_ix) % ep.buffer_size } := by
  have hsz : 0 < ep.buffer_size := by omega
  unfold heartbeat_read_packet
  simp only
  set sz := ep.buffer_size with hszdef
  set out := ep.out_ix with houtdef
  set len := ep.buffer out with hlendef
  set o1 := if out + 1 = sz then 0 else out + 1 with ho1def
  have ho1 : o1 = (out + 1) % sz := wrapSucc out sz hout
  set copy_len0 := sz - o1 with hcl0def
  set copy_len := if copy_len0 > len then len else copy_len0 with hcldef
  have hc : copy_len = min (sz - o1) len := by
    rw [hcldef, Nat.min_def]
    split <;> split <;> omega
  obtain ⟨h1, h2, h3⟩ := circ_read_char ep.buffer sz out len o1 copy_len hout hlen ho1 hc
  refine ⟨trivial, h2, h3, ?_⟩
  rw [← h1]

/-- Characterization of one iteration of the overflow discard loop: the
read cursor advances 1 + length positions modulo buffer_size and
buffered_units drops by one; nothing else changes. -/
theorem discard_unit_char (ep : Endpoint)
    (hout : ep.out_ix < ep.buffer_size)
    (hlen : ep.buffer ep.out_ix < ep.buffer_size) :
    discard_unit ep
        = { ep with
            out_ix := (ep.out_ix + 1 + ep.buffer ep.out_ix) % ep.buffer_size,
            buffered_units := ep.buffered_units - 1 } := by
  have hsz : 0 < ep.buffer_size := by omega
  unfold discard_unit
  simp only
  set sz := ep.buffer_size with hszdef
  set out := ep.out_ix with houtdef
  set len := ep.buffer out with hlendef
  set o1 := if out + 1 = sz then 0 else out + 1 with ho1def
  have ho1 : o1 = (out + 1) % sz := wrapSucc out sz hout
  set copy_len0 := sz - o1 with hcl0def
  set copy_len := if copy_len0 > len then len else copy_len0 with hcldef
  have hc : copy_len = min (sz - o1) len := by
    rw [hcldef, Nat.min_def]
    split <;> split <;> omega
  obtain ⟨h1, h2, h3⟩ := circ_read_char ep.buffer sz out len o1 copy_len hout hlen ho1 hc
  rw [← h1]

/-! Abstract view of the ring: the queue of buffered units. -/



theorem encodeUnits_nil : encodeUnits [] = [] := rfl

theorem encodeUnits_cons (u : List Nat) (q : List (List Nat)) :
    encodeUnits (u :: q) = (u.length :: u) ++ encodeUnits q := rfl

theorem encodeUnits_append (q1 q2 : List (List Nat)) :
    encodeUnits (q1 ++ q2) = encodeUnits q1 ++ encodeUnits q2 := by
  simp [encodeUnits]


/-- Free space under the representation: buffer_size - 1 minus the
length of the encoded stream. -/
theorem codeSpace_rep (ep : Endpoint) (L0 : Nat)
    (hout : ep.out_ix < ep.buffer_size) (hL0 : L0 < ep.buffer_size)
    (hin : ep.in_ix = (ep.out_ix + L0) % ep.buffer_size) :
    codeSpace ep = (ep.buffer_size : Int) - 1 - L0 := by
  simp only [codeSpace]
  rcases Nat.lt_or_ge (ep.out_ix + L0) ep.buffer_size with h | h
  · rw [hin, Nat.mod_eq_of_lt h]
    split <;> omega
  · have h2 : (ep.out_ix + L0) % ep.buffer_size = ep.out_ix + L0 - ep.buffer_size := by
      rw [Nat.mod_eq_sub_mod h, Nat.mod_eq_of_lt (by omega)]
    rw [hin, h2]
    split <;> omega

/-- Writing a unit that fits (together with what the ring already
holds) succeeds and appends the unit to the abstract queue. -/
theorem write_rep (ep : Endpoint) (q : List (List Nat)) (u : List Nat)
    (hrep : ringRep ep q) (hu : u.length < 256)
    (hfit : (encodeUnits (q ++ [u])).length < ep.buffer_size) :
    (oz_hcd_buffer_data ep u).1 = 0 ∧
    (oz_hcd_buffer_data ep u).2.buffer_size = ep.buffer_size ∧
    ringRep (oz_hcd_buffer_data ep u).2 (q ++ [u]) := by
  obtain ⟨hb, hout, hin, hL0, hinix, hcont, hunits, hcount⟩ := hrep
  set sz := ep.buffer_size with hszdef
  set L0 := (encodeUnits q).length with hL0def
  have hlapp : (encodeUnits (q ++ [u])).length = L0 + (1 + u.length) := by
    rw [encodeUnits_append, List.length_append]
    have hone : (encodeUnits [u]).length = 1 + u.length := by
      simp only [encodeUnits, encodeUnit, List.map_cons, List.map_nil,
        List.flatten_cons, List.flatten_nil, List.append_nil, List.length_cons]
      omega
    omega
  have hsz : 0 < sz := by omega
  have hfit2 : L0 + u.length + 2 ≤ sz := by omega
  have hsp : (u.length : Int) + 1 ≤ codeSpace ep := by
    rw [codeSpace_rep ep L0 hout (by omega) hinix]
    omega
  obtain ⟨h1, h2, h3, h4, h5, h6, h7, h8, h9⟩ := buffer_data_ok ep u hb hin hout hsp
  have hEu : encodeUnits [u] = u.length :: u := by
    simp [encodeUnits, encodeUnit]
  refine ⟨h1, h3, ?_, ?_, ?_, ?_, ?_, ?_, ?_, ?_⟩
  · rw [h2, hb]
  · rw [h3, h4]
    exact hout
  · rw [h3, h6]
    exact Nat.mod_lt _ hsz
  · rw [h3]
    omega
  · rw [h6, h3, h4, hlapp, hinix, mod_shift]
    congr 1
    omega
  · -- cell contents for the grown stream
    intro i hi
    rw [hlapp] at hi
    rw [h4, h3]
    rcases Nat.lt_or_ge i L0 with hiL | hiL
    · -- old cells are untouched
      have huntouched := h9 ((ep.out_ix + i) % sz) ?_
      · rw [huntouched, hcont i hiL, encodeUnits_append,
          List.getD_append _ _ _ _ (by omega)]
      · intro j hj hcontra
        rw [hinix, Nat.mod_add_mod] at hcontra
        have heq := mod_add_cancel sz ep.out_ix i (L0 + j) (by omega) (by omega)
          (by rw [hcontra]; congr 1; omega)
        omega
    · rcases Nat.lt_or_ge i (L0 + 1) with hiL1 | hiL1
      · -- the length-prefix cell
        have hieq : i = L0 := by omega
        subst hieq
        rw [← hinix, h7, encodeUnits_append, hEu,
          List.getD_append_right _ _ _ _ (by omega), Nat.mod_eq_of_lt hu,
          ← hL0def, Nat.sub_self]
        simp
      · -- the payload cells
        have hj : i - L0 - 1 < u.length := by omega
        have hidx : (ep.out_ix + i) % sz = (ep.in_ix + 1 + (i - L0 - 1)) % sz := by
          rw [hinix, mod_shift]
          congr 1
          omega
        rw [hidx, h8 (i - L0 - 1) hj, encodeUnits_append, hEu,
          List.getD_append_right _ _ _ _ (by omega), ← hL0def,
          show i - L0 = (i - L0 - 1) + 1 by omega, List.getD_cons_succ]
        simp
  · intro v hv
    rcases List.mem_append.mp hv with h | h
    · exact hunits v h
    · rw [List.mem_singleton.mp h]
      exact hu
  · rw [h5, hcount, List.length_append]
    push_cast
    simp

/-- Draining one unit into an urb whose buffer is large enough pops the
head unit off the abstract queue and delivers exactly its bytes and
length. -/
theorem read_rep (ep : Endpoint) (u : List Nat) (q : List (List Nat)) (urb : Urb)
    (hrep : ringRep ep (u :: q)) (htbl : u.length ≤ urb.transfer_buffer_length) :
    (oz_complete_buffered_urb ep urb).1.transfer_buffer = u ∧
    (oz_complete_buffered_urb ep urb).1.actual_length = u.length ∧
    ringRep (oz_complete_buffered_urb ep urb).2 q := by
  obtain ⟨hb, hout, hin, hL0, hinix, hcont, hunits, hcount⟩ := hrep
  set sz := ep.buffer_size with hszdef
  have hsz : 0 < sz := by omega
  have hEu : encodeUnits (u :: q) = (u.length :: u) ++ encodeUnits q := encodeUnits_cons u q
  have hlen0 : (encodeUnits (u :: q)).length = 1 + u.length + (encodeUnits q).length := by
    rw [hEu, List.length_append, List.length_cons]
    omega
  have hcell0 : ep.buffer ep.out_ix = u.length := by
    have h0 := hcont 0 (by omega)
    rw [Nat.add_zero, Nat.mod_eq_of_lt hout] at h0
    rw [h0, hEu, List.getD_append _ _ _ _ (by simp)]
    simp
  have hulen : u.length < 256 := hunits u (by simp)
  have hlensz : ep.buffer ep.out_ix < sz := by
    rw [hcell0]
    omega
  obtain ⟨c1, c2, c3, c4⟩ := complete_buffered_char ep urb hout hlensz
  have hmin : min (ep.buffer ep.out_ix) urb.transfer_buffer_length = u.length := by
    rw [hcell0]
    exact Nat.min_eq_left htbl
  rw [hmin] at c1 c2 c3 c4
  refine ⟨?_, c1, ?_⟩
  · -- the copied bytes are exactly the unit
    apply List.ext_getElem (by rw [c2])
    intro i h1 h2
    have h3 := c3 i h2
    rw [List.getD_eq_getElem _ _ h1] at h3
    rw [h3]
    have h4 := hcont (1 + i) (by omega)
    rw [show ep.out_ix + (1 + i) = ep.out_ix + 1 + i by omega] at h4
    rw [h4, hEu, List.getD_append _ _ _ _ (by simp; omega),
      show 1 + i = i + 1 by omega, List.getD_cons_succ, List.getD_eq_getElem _ _ h2]
  · rw [c4]
    refine ⟨hb, Nat.mod_lt _ hsz, hin,
      (by show (encodeUnits q).length < ep.buffer_size; omega), ?_, ?_, ?_, ?_⟩
    · rw [hinix, hlen0, Nat.mod_add_mod]
      congr 1
      omega
    · intro i hi
      rw [Nat.mod_add_mod]
      have h4 := hcont (1 + u.length + i) (by omega)
      rw [show ep.out_ix + (1 + u.length + i) = ep.out_ix + 1 + u.length + i by omega] at h4
      rw [h4, hEu, List.getD_append_right _ _ _ _ (by simp; omega)]
      congr 1
      simp
      omega
    · intro v hv
      exact hunits v (List.mem_cons_of_mem u hv)
    · rw [hcount, List.length_cons]
      push_cast
      ring



/-- Writing a fitting sequence of byte-sized units succeeds and appends
all of them to the abstract queue. -/
theorem writeUnits_rep (q : List (List Nat)) :
    ∀ (ep : Endpoint) (q0 : List (List Nat)), ringRep ep q0 →
    (∀ u, u ∈ q → u.length < 256) →
    (encodeUnits (q0 ++ q)).length < ep.buffer_size →
    (writeUnits ep q).1 = 0 ∧ ringRep (writeUnits ep q).2 (q0 ++ q) := by
  induction q with
  | nil =>
      intro ep q0 hrep hlen hfit
      simpa [writeUnits] using hrep
  | cons u rest ih =>
      intro ep q0 hrep hlen hfit
      have hla : ∀ (q1 q2 : List (List Nat)),
          (encodeUnits (q1 ++ q2)).length
            = (encodeUnits q1).length + (encodeUnits q2).length := by
        intro q1 q2
        rw [encodeUnits_append, List.length_append]
      have hcons : (encodeUnits (u :: rest)).length
          = (encodeUnits [u]).length + (encodeUnits rest).length := by
        rw [show u :: rest = [u] ++ rest from rfl, hla]
      have hfit1 : (encodeUnits (q0 ++ [u])).length < ep.buffer_size := by
        rw [hla] at hfit ⊢
        rw [hcons] at hfit
        omega
      obtain ⟨hw1, hsame, hw2⟩ := write_rep ep q0 u hrep (hlen u (by simp)) hfit1
      have hfit2 : (encodeUnits ((q0 ++ [u]) ++ rest)).length
          < (oz_hcd_buffer_data ep u).2.buffer_size := by
        rw [hla (q0 ++ [u]) rest, hla q0 [u], hsame]
        rw [hla q0 (u :: rest), hcons] at hfit
        omega
      obtain ⟨hrest1, hrest2⟩ := ih (oz_hcd_buffer_data ep u).2 (q0 ++ [u]) hw2
        (fun v hv => hlen v (List.mem_cons_of_mem u hv)) hfit2
      rw [List.append_assoc, List.singleton_append] at hrest2
      simp only [writeUnits]
      rw [if_neg (by rw [hw1]; simp)]
      exact ⟨hrest1, hrest2⟩

/-- Reading the whole queue back with 255-byte urbs delivers every unit
with its bytes and its length, leaving the ring empty. -/
theorem readUnitsBack_rep (q : List (List Nat)) :
    ∀ ep : Endpoint, ringRep ep q →
    (readUnitsBack ep 255 q.length).1 = q.map (fun u => (u, u.length)) ∧
    ringRep (readUnitsBack ep 255 q.length).2 [] := by
  induction q with
  | nil =>
      intro ep hrep
      simpa [readUnitsBack] using hrep
  | cons u rest ih =>
      intro ep hrep
      have hulen : u.length ≤ 255 := by
        obtain ⟨-, -, -, -, -, -, hu, -⟩ := hrep
        have := hu u (by simp)
        omega
      obtain ⟨hr1, hr2, hr3⟩ := read_rep ep u rest { transfer_buffer_length := 255 } hrep hulen
      obtain ⟨ih1, ih2⟩ := ih _ hr3
      simp only [readUnitsBack, List.length_cons, List.map_cons]
      exact ⟨by rw [hr1, hr2, ih1], ih2⟩

/-! Cursor-range preservation for every ring operation. -/

/-- The write operation keeps both cursors in range (no cell bound is
needed: a successful write already implies the data fits). -/
theorem buffer_data_cursors (ep : Endpoint) (data : List Nat)
    (h : cursorsInRange ep) : cursorsInRange (oz_hcd_buffer_data ep data).2 := by
  obtain ⟨hin, hout⟩ := h
  have hsz : 0 < ep.buffer_size := by omega
  by_cases hb : ep.hasBuffer = true
  · by_cases hsp : (data.length : Int) + 1 ≤ codeSpace ep
    · obtain ⟨-, -, h3, h4, -, h6, -⟩ := buffer_data_ok ep data hb hin hout hsp
      constructor
      · rw [h6, h3]
        exact Nat.mod_lt _ hsz
      · rw [h4, h3]
        exact hout
    · rw [buffer_data_fail ep data (by omega)]
      exact ⟨hin, hout⟩
  · rw [buffer_data_nobuf ep data (by simpa using hb)]
    exact ⟨hin, hout⟩

/-- Draining one unit into an urb keeps both cursors in range, provided
the stored length byte is below the buffer size. -/
theorem complete_buffered_cursors (ep : Endpoint) (urb : Urb)
    (h : cursorsInRange ep) (hlen : ep.buffer ep.out_ix < ep.buffer_size) :
    cursorsInRange (oz_complete_buffered_urb ep urb).2 := by
  have hchar := (complete_buffered_char ep urb h.2 hlen).2.2.2
  rw [hchar]
  exact ⟨h.1, Nat.mod_lt _ (by omega)⟩

/-- The packet loop of the IN-isochronous heartbeat drain keeps the
read cursor in range and changes nothing but the read cursor. -/
theorem read_packets_state (n : Nat) : ∀ ep : Endpoint,
    ep.out_ix < ep.buffer_size →
    (∀ i, i < ep.buffer_size → ep.buffer i < ep.buffer_size) →
    (heartbeat_read_packets ep n).2.out_ix < ep.buffer_size ∧
    (heartbeat_read_packets ep n).2.buffer = ep.buffer ∧
    (heartbeat_read_packets ep n).2.buffer_size = ep.buffer_size ∧
    (heartbeat_read_packets ep n).2.in_ix = ep.in_ix := by
  induction n with
  | zero =>
      intro ep h1 h2
      exact ⟨h1, rfl, rfl, rfl⟩
  | succ n ih =>
      intro ep h1 h2
      have hsz : 0 < ep.buffer_size := by omega
      have hchar := (read_packet_char ep h1 (h2 _ h1)).2.2.2
      have hih := ih
        { ep with out_ix := (ep.out_ix + 1 + ep.buffer ep.out_ix) % ep.buffer_size }
        (Nat.mod_lt _ hsz) h2
      simp only [heartbeat_read_packets]
      rw [hchar]
      exact hih

/-- The urb loop of the IN-isochronous heartbeat drain keeps both
cursors in range and never changes the buffer or its size. -/
theorem drain_state (urbs : List UrbLink) : ∀ ep : Endpoint,
    cursorsInRange ep →
    (∀ i, i < ep.buffer_size → ep.buffer i < ep.buffer_size) →
    cursorsInRange (heartbeat_in_drain ep urbs).1 ∧
    (heartbeat_in_drain ep urbs).1.buffer = ep.buffer ∧
    (heartbeat_in_drain ep urbs).1.buffer_size = ep.buffer_size := by
  induction urbs with
  | nil =>
      intro ep h1 h2
      exact ⟨h1, rfl, rfl⟩
  | cons l rest ih =>
      intro ep h1 h2
      simp only [heartbeat_in_drain]
      split
      · exact ⟨h1, rfl, rfl⟩
      · obtain ⟨hp1, hp2, hp3, hp4⟩ := read_packets_state l.urb.number_of_packets ep h1.2 h2
        set rp := heartbeat_read_packets ep l.urb.number_of_packets with hrp
        have hih := ih
          { rp.2 with
            buffered_units := rp.2.buffered_units - (l.urb.number_of_packets : Int),
            credit := rp.2.credit - (l.urb.number_of_packets : Int),
            credit2 := rp.2.credit2 + (l.urb.number_of_packets : Int),
            start_frame := rp.2.start_frame + (l.urb.number_of_packets : Int) }
          (by constructor
              · show rp.2.in_ix < rp.2.buffer_size
                rw [hp3, hp4]
                exact h1.1
              · show rp.2.out_ix < rp.2.buffer_size
                rw [hp3]
                exact hp1)
          (by intro i hi
              show rp.2.buffer i < rp.2.buffer_size
              rw [hp3] at hi ⊢
              rw [hp2]
              exact h2 i hi)
        refine ⟨hih.1, ?_, ?_⟩
        · rw [hih.2.1]
          exact hp2
        · rw [hih.2.2]
          exact hp3

/-- The overflow discard loop keeps both cursors in range and never
changes the buffer or its size. -/
theorem discardLoop_state : ∀ (n : Nat) (ep : Endpoint),
    (ep.buffered_units - (ep.max_buffer_units : Int)).toNat = n →
    cursorsInRange ep →
    (∀ i, i < ep.buffer_size → ep.buffer i < ep.buffer_size) →
    cursorsInRange (discardLoop ep) ∧
    (discardLoop ep).buffer = ep.buffer ∧
    (discardLoop ep).buffer_size = ep.buffer_size := by
  intro n
  induction n using Nat.strong_induction_on with
  | _ n ih =>
      intro ep hn h1 h2
      unfold discardLoop
      split
      · next hgt =>
          have hchar := discard_unit_char ep h1.2 (h2 _ h1.2)
          have hu : (discard_unit ep).buffered_units = ep.buffered_units - 1 := by
            rw [hchar]
          have hm : (discard_unit ep).max_buffer_units = ep.max_buffer_units := by
            rw [hchar]
          have hmeas : ((discard_unit ep).buffered_units
              - ((discard_unit ep).max_buffer_units : Int)).toNat < n := by
            rw [hu, hm]
            omega
          have h0 : 0 < ep.buffer_size := Nat.lt_of_le_of_lt (Nat.zero_le _) h1.2
          have hih := ih _ hmeas (discard_unit ep) rfl
            (by rw [hchar]
                exact ⟨h1.1, Nat.mod_lt _ h0⟩)
            (by rw [hchar]
                intro i hi
                exact h2 i hi)
          refine ⟨hih.1, ?_, ?_⟩
          · rw [hih.2.1, hchar]
          · rw [hih.2.2, hchar]
      · exact ⟨h1, rfl, rfl⟩

/-! OUT isochronous credit accounting. -/

/-- The release loop leaves a zero credit alone and releases nothing. -/
theorem heartbeat_out_release_zero (urbs : List UrbLink) :
    heartbeat_out_release 0 urbs = (0, [], urbs) := by
  cases urbs with
  | nil => rfl
  | cons l rest => simp [heartbeat_out_release]

/-- The release loop never drives a nonnegative credit negative. -/
theorem heartbeat_out_release_nonneg (urbs : List UrbLink) : ∀ c : Int, 0 ≤ c →
    0 ≤ (heartbeat_out_release c urbs).1 := by
  induction urbs with
  | nil =>
      intro c hc
      exact hc
  | cons l rest ih =>
      intro c hc
      simp only [heartbeat_out_release]
      split
      · exact hc
      · split
        · exact hc
        · exact ih _ (by split <;> omega)

/-- The head of the queue is only released when its packet count does
not exceed credit + 1. -/
theorem heartbeat_out_release_head (c : Int) (l : UrbLink) (rest : List UrbLink)
    (h : (heartbeat_out_release c (l :: rest)).2.1 ≠ []) :
    (l.urb.number_of_packets : Int) ≤ c + 1 := by
  by_contra hgt
  apply h
  simp only [heartbeat_out_release]
  by_cases hc0 : c = 0
  · rw [if_pos hc0]
  · rw [if_neg hc0, if_pos (by omega)]

/-- The final credit of the release loop is the starting credit reduced
by the packet count of each released urb in turn, clamped at zero at
every step. -/
theorem heartbeat_out_release_credit (urbs : List UrbLink) : ∀ c : Int,
    (heartbeat_out_release c urbs).1
      = ((heartbeat_out_release c urbs).2.1).foldl
          (fun acc l => max 0 (acc - (l.urb.number_of_packets : Int))) c := by
  induction urbs with
  | nil =>
      intro c
      rfl
  | cons l rest ih =>
      intro c
      simp only [heartbeat_out_release]
      split
      · rfl
      · split
        · rfl
        · rw [List.foldl_cons,
            show max 0 (c - (l.urb.number_of_packets : Int))
              = (if c - (l.urb.number_of_packets : Int) < 0 then 0
                 else c - (l.urb.number_of_packets : Int)) by split <;> omega]
          exact ih _

/-- One OUT heartbeat step keeps an active credit nonnegative and does
not change the ceiling. -/
theorem heartbeat_out_step_facts (ep : Endpoint) (d : Int)
    (hc : 0 ≤ ep.credit) (hceil : 0 ≤ ep.credit_ceiling) (hd : 0 ≤ d) :
    0 ≤ (heartbeat_out_step ep d).1.credit ∧
    (heartbeat_out_step ep d).1.credit_ceiling = ep.credit_ceiling := by
  simp only [heartbeat_out_step]
  rw [if_neg (by omega)]
  refine ⟨?_, rfl⟩
  exact heartbeat_out_release_nonneg ep.urb_list _ (by split <;> omega)

/-- Credit stays nonnegative across any sequence of heartbeat ticks. -/
theorem heartbeat_out_ticks_nonneg (deltas : List Int) : ∀ ep : Endpoint,
    0 ≤ ep.credit → 0 ≤ ep.credit_ceiling → (∀ d, d ∈ deltas → 0 ≤ d) →
    0 ≤ (heartbeat_out_ticks ep deltas).credit := by
  induction deltas with
  | nil =>
      intro ep hc _ _
      exact hc
  | cons d ds ih =>
      intro ep hc hceil hds
      simp only [heartbeat_out_ticks]
      obtain ⟨s1, s2⟩ := heartbeat_out_step_facts ep d hc hceil (hds d (by simp))
      exact ih _ s1 (by rw [s2]; exact hceil) (fun x hx => hds x (by simp [hx]))

/-- Removing an isochronous urb from the queue clamps the credit
adjustment at zero as well. -/
theorem oz_remove_urb_nonneg (ep : Endpoint) (urb : Urb) (hc : 0 ≤ ep.credit) :
    0 ≤ (oz_remove_urb ep urb).2.credit := by
  simp only [oz_remove_urb]
  split
  · exact hc
  · split
    · show (0 : Int) ≤ if ep.credit - (urb.number_of_packets : Int) < 0 then 0
          else ep.credit - (urb.number_of_packets : Int)
      split <;> omega
    · exact hc

/-! Buffering-flag transitions of the IN isochronous machinery. -/

/-- The write operation never touches the buffering flag. -/
theorem buffer_data_buffering (ep : Endpoint) (data : List Nat) :
    (oz_hcd_buffer_data ep data).2.buffering = ep.buffering := by
  simp only [oz_hcd_buffer_data]
  repeat' split
  all_goals rfl

/-- The packet loop never touches the buffering flag. -/
theorem read_packets_buffering (n : Nat) : ∀ ep : Endpoint,
    (heartbeat_read_packets ep n).2.buffering = ep.buffering := by
  induction n with
  | zero =>
      intro ep
      rfl
  | succ n ih =>
      intro ep
      simp only [heartbeat_read_packets]
      exact ih _

/-- The urb drain loop never touches the buffering flag. -/
theorem drain_buffering (urbs : List UrbLink) : ∀ ep : Endpoint,
    (heartbeat_in_drain ep urbs).1.buffering = ep.buffering := by
  induction urbs with
  | nil =>
      intro ep
      rfl
  | cons l rest ih =>
      intro ep
      simp only [heartbeat_in_drain]
      split
      · rfl
      · rw [ih]
        exact read_packets_buffering _ _

/-- The discard loop exits with at most max_buffer_units units, and
touches neither the flag nor the configured maximum. -/
theorem discardLoop_out : ∀ (n : Nat) (ep : Endpoint),
    (ep.buffered_units - (ep.max_buffer_units : Int)).toNat = n →
    (discardLoop ep).buffered_units ≤ ((discardLoop ep).max_buffer_units : Int) ∧
    (discardLoop ep).max_buffer_units = ep.max_buffer_units ∧
    (discardLoop ep).buffering = ep.buffering := by
  intro n
  induction n using Nat.strong_induction_on with
  | _ n ih =>
      intro ep hn
      unfold discardLoop
      split
      · next hgt =>
          have hu : (discard_unit ep).buffered_units = ep.buffered_units - 1 := rfl
          have hm : (discard_unit ep).max_buffer_units = ep.max_buffer_units := rfl
          have hf : (discard_unit ep).buffering = ep.buffering := rfl
          have hmeas : ((discard_unit ep).buffered_units
              - ((discard_unit ep).max_buffer_units : Int)).toNat < n := by
            rw [hu, hm]
            omega
          obtain ⟨o1, o2, o3⟩ := ih _ hmeas (discard_unit ep) rfl
          exact ⟨o1, by rw [o2, hm], by rw [o3, hf]⟩
      · next hle =>
          exact ⟨by omega, rfl, rfl⟩

/-- While buffering, a heartbeat clears the flag exactly when the
buffered-unit count has reached the configured maximum. -/
theorem heartbeat_in_clear_iff (ep : Endpoint) (d : Int) (hb : ep.buffering = true) :
    ((heartbeat_in_step ep d).1.buffering = false ↔
      (ep.max_buffer_units : Int) ≤ ep.buffered_units) := by
  simp only [heartbeat_in_step, hb, if_true]
  split
  · next hge =>
      exact ⟨fun _ => by omega, fun _ => rfl⟩
  · next hlt =>
      constructor
      · intro hcon
        have hcon2 : ep.buffering = false := hcon
        rw [hb] at hcon2
        exact absurd hcon2 (by simp)
      · intro hge2
        exact absurd hge2 (by omega)

/-- While not buffering, a heartbeat sets the flag only when the
buffered units have reached zero. -/
theorem heartbeat_in_set_only_at_zero (ep : Endpoint) (d : Int)
    (hb : ep.buffering = false) :
    (heartbeat_in_step ep d).1.buffering = true →
    (heartbeat_in_step ep d).1.buffered_units = 0 := by
  intro hset
  simp only [heartbeat_in_step, hb, Bool.false_eq_true, if_false] at hset ⊢
  split at hset
  · next hzero =>
      split
      · exact hzero
      · next hne =>
          exact absurd hzero hne
  · next hnz =>
      exfalso
      split at hset
      · rw [show (∀ e : Endpoint, ({ e with credit2 := 0 } : Endpoint).buffering
            = e.buffering) from fun e => rfl] at hset
        rw [drain_buffering] at hset
        simp [hb] at hset
      · rw [drain_buffering] at hset
        simp [hb] at hset

/-- While not buffering, a data indication sets the flag exactly when
the ring-buffer write fails (overflow); and on overflow the units are
first discarded down to at most the configured maximum. -/
theorem data_ind_isoc_set (ep : Endpoint) (data : List Nat) :
    (ep.buffering = false →
      ((oz_hcd_data_ind_isoc ep data).buffering = true ↔
        (oz_hcd_buffer_data ep data).1 ≠ 0)) ∧
    ((oz_hcd_buffer_data ep data).1 ≠ 0 →
      (oz_hcd_data_ind_isoc ep data).buffered_units
        ≤ ((oz_hcd_data_ind_isoc ep data).max_buffer_units : Int)) := by
  constructor
  · intro hb
    simp only [oz_hcd_data_ind_isoc]
    split
    · next hfail =>
        exact ⟨fun _ => hfail, fun _ => rfl⟩
    · next hok =>
        constructor
        · intro hcon
          have hcon2 : ep.buffering = true := by
            rw [← buffer_data_buffering ep data]
            exact hcon
          rw [hb] at hcon2
          exact absurd hcon2 (by simp)
        · intro hcon
          exact absurd hcon hok
  · intro hfail
    simp only [oz_hcd_data_ind_isoc]
    rw [if_pos hfail]
    exact (discardLoop_out _ ep rfl).1

/-! Error paths of endpoint enqueue and deferred processing. -/

/-- When oz_enqueue_ep_urb returns an error, it neither changes the
port nor performs any completion. -/
theorem oz_enqueue_err (port : Port) (ep_addr : Nat) (in_dir : Bool) (urb : Urb)
    (req_id : Nat) (allocOk : Bool)
    (h : (oz_enqueue_ep_urb port ep_addr in_dir urb req_id allocOk).1 ≠ 0) :
    (oz_enqueue_ep_urb port ep_addr in_dir urb req_id allocOk).2.1 = port ∧
    (oz_enqueue_ep_urb port ep_addr in_dir urb req_id allocOk).2.2
      = EnqueueEffect.nothingDone := by
  unfold oz_enqueue_ep_urb at h ⊢
  by_cases h1 : OZ_NB_ENDPOINTS ≤ ep_addr
  · rw [if_pos h1]
    exact ⟨rfl, rfl⟩
  · rw [if_neg h1] at h ⊢
    by_cases h2 : allocOk = false
    · rw [if_pos h2]
      exact ⟨rfl, rfl⟩
    · rw [if_neg h2] at h ⊢
      by_cases h3 : urb.unlinked = true
      · rw [if_pos h3] at h
        exact absurd rfl h
      · rw [if_neg h3] at h ⊢
        cases hep : (if in_dir then port.in_ep ep_addr else port.out_ep ep_addr) with
        | none =>
            exact ⟨rfl, rfl⟩
        | some ep =>
            rw [hep] at h
            simp only at h ⊢
            by_cases h4 : ep.attrib % 4 = USB_ENDPOINT_XFER_INT ∧ ep.buffered_units > 0
            · rw [if_pos h4] at h
              exact absurd rfl h
            · rw [if_neg h4] at h ⊢
              by_cases h5 : port.hpd = true
              · rw [if_pos h5] at h
                exact absurd rfl h
              · rw [if_neg h5]
                exact ⟨rfl, rfl⟩

/-! The claims. -/

/-- C1: whenever the host controller is not running, or the port
resolved from the bus address of the urb is not marked present, the
submission entry point oz_hcd_urb_enqueue returns -ENODEV synchronously
and the urb is not appended to the pending-submission list. -/
theorem C1_enqueue_nodevice (h : OzHcd) (urb : Urb) (allocOk : Bool) (link_rc : Int)
    (hcase : h.hcd_running = false ∨
      (0 ≤ oz_get_port_from_addr h urb.pipe_device ∧
       (h.ports (oz_get_port_from_addr h urb.pipe_device).toNat).present = false)) :
    (oz_hcd_urb_enqueue h urb allocOk link_rc).1 = -ENODEV ∧
    (oz_hcd_urb_enqueue h urb allocOk link_rc).2.urb_pending_list
      = h.urb_pending_list := by
  unfold oz_hcd_urb_enqueue
  by_cases hrun : h.hcd_running = false
  · rw [if_pos hrun]
    exact ⟨rfl, rfl⟩
  · rw [if_neg hrun]
    rcases hcase with hr | ⟨hge, hpres⟩
    · exact absurd hr hrun
    · rw [if_neg (by omega), if_pos (by rw [hpres])]
      exact ⟨rfl, rfl⟩

/-- C1 (witness): a submission addressed to a port that carries the
bus address but is not present is refused with -ENODEV and the pending
list is unchanged. -/
theorem C1_witness :
    (oz_hcd_urb_enqueue hcdC1 urbC1 true 0).1 = -ENODEV ∧
    (oz_hcd_urb_enqueue hcdC1 urbC1 true 0).2.urb_pending_list
      = hcdC1.urb_pending_list :=
  C1_enqueue_nodevice hcdC1 urbC1 true 0 (Or.inr ⟨by decide, by decide⟩)

/-- C5 (counterexample): an out-of-memory failure of the link
allocation inside oz_enqueue_ep_urb (return -ENOMEM) is surfaced by
the deferred-processing tasklet as -ENOENT, not as -ENOMEM:
oz_urb_process maps every nonzero Endpoint-Enqueue error to -ENOENT
before the tasklet completes the urb with it. -/
theorem C5_counterexample :
    (oz_enqueue_ep_urb (hcdC5.ports 0) 1 false urbC5 0 false).1 = -ENOMEM ∧
    (oz_urb_process_one hcdC5 0 urbC5 false true).2 = [(urbC5, -ENOENT)] ∧
    (-ENOENT : Int) ≠ -ENOMEM := by
  refine ⟨by decide, by decide, by decide⟩

/-- C5 (amended): when deferred submission processing hands a
non-control urb to Endpoint Enqueue and Endpoint Enqueue returns any
error, the urb is completed immediately, but always with the fixed
code -ENOENT, regardless of which error Endpoint Enqueue returned; in
particular an out-of-memory failure from link allocation is surfaced
as -ENOENT, not as -ENOMEM. -/
theorem C5_enqueue_error_enoent (h : OzHcd) (pix : Nat) (urb : Urb)
    (allocOk ctrlOk : Bool)
    (hbuf : ¬ (urb.transfer_buffer_null = true ∧ urb.transfer_buffer_length ≠ 0))
    (hpres : (h.ports pix).present = true)
    (hep : urb.pipe_endpoint ≠ 0)
    (herr : (oz_enqueue_ep_urb (h.ports pix) urb.pipe_endpoint urb.pipe_in urb 0
        allocOk).1 ≠ 0) :
    (oz_urb_process h pix urb allocOk ctrlOk).1 = -ENOENT ∧
    (oz_urb_process_one h pix urb allocOk ctrlOk).2 = [(urb, -ENOENT)] := by
  obtain ⟨he1, he2⟩ := oz_enqueue_err (h.ports pix) urb.pipe_endpoint urb.pipe_in urb 0
    allocOk herr
  have hproc : oz_urb_process h pix urb allocOk ctrlOk
      = (-ENOENT, updPort h pix (h.ports pix), []) := by
    simp only [oz_urb_process]
    rw [if_neg hbuf, if_neg (by rw [hpres]; simp), if_pos hep, he1, he2, if_pos herr]
  refine ⟨by rw [hproc], ?_⟩
  simp only [oz_urb_process_one]
  rw [hproc]
  have hne : ((-ENOENT : Int), updPort h pix (h.ports pix),
      ([] : List (Urb × Int))).1 ≠ 0 := by
    show (-ENOENT : Int) ≠ 0
    decide
  rw [if_pos hne]
  rfl

/-- C5 (witness): the amended statement at the concrete failing-alloc
input of the counterexample. -/
theorem C5_witness :
    (oz_urb_process hcdC5 0 urbC5 false true).1 = -ENOENT ∧
    (oz_urb_process_one hcdC5 0 urbC5 false true).2 = [(urbC5, -ENOENT)] :=
  C5_enqueue_error_enoent hcdC5 0 urbC5 false true (by decide) (by decide)
    (by decide) (by decide)

/-- C7: a call to Endpoint Enqueue for an existing interrupt-type
endpoint with buffered data (link allocation succeeding, urb not
unlinked) drains exactly one buffered unit into the urb via
oz_complete_buffered_urb, completes it synchronously with status 0
instead of queuing it, and decrements the buffered-unit count by one
while leaving the endpoint queue unchanged. -/
theorem C7_int_buffered_drain (port : Port) (ep_addr : Nat) (in_dir : Bool)
    (urb : Urb) (req_id : Nat) (ep : Endpoint)
    (hlt : ep_addr < OZ_NB_ENDPOINTS)
    (hunlink : urb.unlinked = false)
    (hepo : (if in_dir then port.in_ep ep_addr else port.out_ep ep_addr) = some ep)
    (hint : ep.attrib % 4 = USB_ENDPOINT_XFER_INT)
    (hbuf : 0 < ep.buffered_units) :
    (oz_enqueue_ep_urb port ep_addr in_dir urb req_id true).1 = 0 ∧
    (oz_enqueue_ep_urb port ep_addr in_dir urb req_id true).2.2
      = EnqueueEffect.completedNow (oz_complete_buffered_urb ep urb).1 0 ∧
    (if in_dir then (oz_enqueue_ep_urb port ep_addr in_dir urb req_id true).2.1.in_ep ep_addr
     else (oz_enqueue_ep_urb port ep_addr in_dir urb req_id true).2.1.out_ep ep_addr)
      = some (oz_complete_buffered_urb ep urb).2 ∧
    (oz_complete_buffered_urb ep urb).2.buffered_units = ep.buffered_units - 1 ∧
    (oz_complete_buffered_urb ep urb).2.urb_list = ep.urb_list := by
  have hmain : oz_enqueue_ep_urb port ep_addr in_dir urb req_id true
      = (0,
         (if in_dir then { port with in_ep := setEp port.in_ep ep_addr (oz_complete_buffered_urb ep urb).2 } else { port with out_ep := setEp port.out_ep ep_addr (oz_complete_buffered_urb ep urb).2 }),
         EnqueueEffect.completedNow (oz_complete_buffered_urb ep urb).1 0) := by
    simp only [oz_enqueue_ep_urb]
    rw [if_neg (by omega), if_neg (by simp), if_neg (by rw [hunlink]; simp), hepo]
    simp only
    rw [if_pos ⟨hint, hbuf⟩]
  refine ⟨by rw [hmain], by rw [hmain], ?_, rfl, rfl⟩
  rw [hmain]
  cases in_dir with
  | false => simp [setEp]
  | true => simp [setEp]

/-- C7 (witness): an interrupt endpoint holding one 2-byte unit
completes the urb on the spot with its bytes, and the buffered-unit
count drops to zero. -/
theorem C7_witness :
    (oz_enqueue_ep_urb portC7 1 true urbC7 0 true).1 = 0 ∧
    (oz_enqueue_ep_urb portC7 1 true urbC7 0 true).2.2
      = EnqueueEffect.completedNow (oz_complete_buffered_urb epC7 urbC7).1 0 ∧
    (oz_complete_buffered_urb epC7 urbC7).2.buffered_units = 0 := by
  have h := C7_int_buffered_drain portC7 1 true urbC7 0 epC7 (by decide) (by decide)
    rfl (by decide) (by decide)
  refine ⟨h.1, h.2.1, ?_⟩
  rw [h.2.2.2.1]
  decide

/-- C6 (counterexample): processing SET_ADDRESS for a port that is NOT
the current connection port still assigns the address and clears the
connection-port slot - to the connection port, not the target.  Here
port 0 (bus address 5) is the target while port 1 is the connection
port: the request completes with success, port 1 receives bus address
9, and the connection-port slot is cleared, although the processed
port (0) is not the connection port (1). -/
theorem C6_counterexample :
    (oz_process_ep0_urb hcdC6 urbC6 true true).1 = Ep0Outcome.completed urbC6 0 ∧
    oz_get_port_from_addr hcdC6 urbC6.pipe_device = 0 ∧
    hcdC6.conn_port = 1 ∧
    (oz_process_ep0_urb hcdC6 urbC6 true true).2.conn_port = -1 ∧
    ((oz_process_ep0_urb hcdC6 urbC6 true true).2.ports 1).bus_addr = 9 ∧
    ((oz_process_ep0_urb hcdC6 urbC6 true true).2.ports 0).bus_addr = 5 := by
  refine ⟨by decide, by decide, by decide, by decide, by decide, by decide⟩

/-- C6 (amended): when a SET_ADDRESS request is processed for a
present, non-dying port with a peer attached, the urb is completed
immediately with success, and: if a connection port exists (whether or
not it is the target port), the requested address is assigned to that
connection port and the connection-port slot is cleared; if no
connection port exists, no address is assigned and the slot stays
empty.  The assignment is not conditioned on the target port being the
connection port, which is what the original claim said. -/
theorem C6_set_address (h : OzHcd) (urb : Urb) (ctrlOk allocOk : Bool)
    (hreq : urb.setup.bRequestType &&& USB_TYPE_MASK = 0)
    (hreq2 : urb.setup.bRequest = USB_REQ_SET_ADDRESS)
    (hge : 0 ≤ oz_get_port_from_addr h urb.pipe_device)
    (hpres : (h.ports (oz_get_port_from_addr h urb.pipe_device).toNat).present = true)
    (hdying : (h.ports (oz_get_port_from_addr h urb.pipe_device).toNat).dying = false)
    (hhpd : (h.ports (oz_get_port_from_addr h urb.pipe_device).toNat).hpd = true) :
    (oz_process_ep0_urb h urb ctrlOk allocOk).1 = Ep0Outcome.completed urb 0 ∧
    (0 ≤ h.conn_port →
      (oz_process_ep0_urb h urb ctrlOk allocOk).2.conn_port = -1 ∧
      ((oz_process_ep0_urb h urb ctrlOk allocOk).2.ports h.conn_port.toNat).bus_addr
        = urb.setup.wValue % 256) ∧
    (h.conn_port < 0 →
      (oz_process_ep0_urb h urb ctrlOk allocOk).2.conn_port = h.conn_port ∧
      ∀ i, ((oz_process_ep0_urb h urb ctrlOk allocOk).2.ports i).bus_addr
        = (h.ports i).bus_addr) := by
  have hconnupd : ∀ (g : OzHcd) (i : Nat) (p : Port),
      (updPort g i p).conn_port = g.conn_port := fun _ _ _ => rfl
  have hchain : ∀ P : Ep0Outcome × OzHcd → Prop,
      (P (Ep0Outcome.completed urb 0,
        if 0 ≤ h.conn_port then
          { updPort
              (updPort h (oz_get_port_from_addr h urb.pipe_device).toNat
                { h.ports (oz_get_port_from_addr h urb.pipe_device).toNat with
                    next_req_id := ((h.ports (oz_get_port_from_addr h urb.pipe_device).toNat).next_req_id + 1) % 256 })
              h.conn_port.toNat
              { (updPort h (oz_get_port_from_addr h urb.pipe_device).toNat
                  { h.ports (oz_get_port_from_addr h urb.pipe_device).toNat with
                      next_req_id := ((h.ports (oz_get_port_from_addr h urb.pipe_device).toNat).next_req_id + 1) % 256 }).ports h.conn_port.toNat with
                  bus_addr := urb.setup.wValue % 256 }
            with conn_port := -1 }
        else
          updPort h (oz_get_port_from_addr h urb.pipe_device).toNat
            { h.ports (oz_get_port_from_addr h urb.pipe_device).toNat with
                next_req_id := ((h.ports (oz_get_port_from_addr h urb.pipe_device).toNat).next_req_id + 1) % 256 })) →
      P (oz_process_ep0_urb h urb ctrlOk allocOk) := by
    intro P hP
    simp only [oz_process_ep0_urb]
    rw [if_neg (by omega), if_neg (by rw [hpres, hdying]; simp),
      if_neg (by rw [hhpd]; simp), if_pos hreq, if_pos hreq2]
    simp only [hconnupd]
    rw [if_neg (by simp)]
    exact hP
  refine ⟨?_, ?_, ?_⟩
  · exact hchain (fun r => r.1 = Ep0Outcome.completed urb 0) rfl
  · intro hc
    refine hchain (fun r => r.2.conn_port = -1 ∧
      (r.2.ports h.conn_port.toNat).bus_addr = urb.setup.wValue % 256) ?_
    rw [if_pos hc]
    constructor
    · rfl
    · simp [updPort]
  · intro hc
    refine hchain (fun r => r.2.conn_port = h.conn_port ∧
      ∀ i, (r.2.ports i).bus_addr = (h.ports i).bus_addr) ?_
    rw [if_neg (by omega)]
    constructor
    · rfl
    · intro i
      simp only [updPort]
      split
      · next hie =>
          subst hie
          rfl
      · rfl

/-- C6 (witness): the amended statement at the counterexample state:
the connection port (1) receives the requested address 9 and the slot
is cleared, while the request completes with success. -/
theorem C6_witness :
    (oz_process_ep0_urb hcdC6 urbC6 true true).1 = Ep0Outcome.completed urbC6 0 ∧
    (oz_process_ep0_urb hcdC6 urbC6 true true).2.conn_port = -1 ∧
    ((oz_process_ep0_urb hcdC6 urbC6 true true).2.ports
        hcdC6.conn_port.toNat).bus_addr = urbC6.setup.wValue % 256 := by
  have h := C6_set_address hcdC6 urbC6 true true (by decide) (by decide) (by decide)
    (by decide) (by decide) (by decide)
  exact ⟨h.1, (h.2.1 (by decide)).1, (h.2.1 (by decide)).2⟩

/-- C4 (counterexample): the buffering flag can be set again at a
nonzero buffered-unit count.  Starting from a freshly built IN
isochronous endpoint (buffering set, ring empty) with max_buffer_units
2: buffering two units, then one heartbeat (clears the flag at the
maximum), then a heartbeat that drains one unit (one unit left), then a
data indication whose write overflows the ring - the overflow path of
oz_hcd_data_ind sets the flag with one buffered unit remaining, not
zero. -/
theorem C4_counterexample :
    epC4s4.buffering = false ∧ epC4s4.buffered_units = 1 ∧
    epC4s5.buffering = true ∧ epC4s5.buffered_units = 1 ∧ (1 : Int) ≠ 0 := by
  have h5 : epC4s5 = { discardLoop epC4s4 with buffering := true } := by
    show oz_hcd_data_ind_isoc epC4s4 [1, 2, 3, 4, 5] = _
    simp only [oz_hcd_data_ind_isoc]
    rw [if_pos (by decide)]
  have h6 : discardLoop epC4s4 = epC4s4 := by
    unfold discardLoop
    rw [if_neg (by decide)]
  rw [h5, h6]
  refine ⟨by decide, by decide, by decide, by decide, by decide⟩

/-- C4 (amended): while buffering, a heartbeat clears the flag exactly
when buffered units have reached max_buffer_units; while not
buffering, a heartbeat sets it only when buffered units reach zero,
but a data indication also sets it whenever its ring write fails
(overflow) - after discarding buffered units down to at most
max_buffer_units - so re-entry does not only happen at zero. -/
theorem C4_buffering_hysteresis (ep : Endpoint) (d : Int) (data : List Nat) :
    (ep.buffering = true →
      ((heartbeat_in_step ep d).1.buffering = false ↔
        (ep.max_buffer_units : Int) ≤ ep.buffered_units)) ∧
    (ep.buffering = false →
      (heartbeat_in_step ep d).1.buffering = true →
      (heartbeat_in_step ep d).1.buffered_units = 0) ∧
    (ep.buffering = false →
      ((oz_hcd_data_ind_isoc ep data).buffering = true ↔
        (oz_hcd_buffer_data ep data).1 ≠ 0)) ∧
    ((oz_hcd_buffer_data ep data).1 ≠ 0 →
      (oz_hcd_data_ind_isoc ep data).buffered_units
        ≤ ((oz_hcd_data_ind_isoc ep data).max_buffer_units : Int)) :=
  ⟨fun hb => heartbeat_in_clear_iff ep d hb,
   fun hb => heartbeat_in_set_only_at_zero ep d hb,
   (data_ind_isoc_set ep data).1,
   (data_ind_isoc_set ep data).2⟩

/-- C4 (witness): the amended statement at the traced endpoint state
with one buffered unit and an overflowing write. -/
theorem C4_witness :
    ((oz_hcd_data_ind_isoc epC4s4 [1, 2, 3, 4, 5]).buffering = true ↔
      (oz_hcd_buffer_data epC4s4 [1, 2, 3, 4, 5]).1 ≠ 0) ∧
    ((heartbeat_in_step epC4 0).1.buffering = false ↔
      (epC4.max_buffer_units : Int) ≤ epC4.buffered_units) :=
  ⟨(C4_buffering_hysteresis epC4s4 0 [1, 2, 3, 4, 5]).2.2.1 (by decide),
   (C4_buffering_hysteresis epC4 0 [1, 2, 3, 4, 5]).1 (by decide)⟩

/-- C3 (counterexample): credit is NOT always decremented by exactly
the number of packets released.  With credit 1 and a two-packet urb at
the head, the urb is released (2 does not exceed credit + 1), but the
decrement is clamped: the credit becomes 0, not 1 - 2 = -1. -/
theorem C3_counterexample :
    (heartbeat_out_release 1 [urblC3]).2.1 = [urblC3] ∧
    (heartbeat_out_release 1 [urblC3]).1 = 0 ∧
    (urblC3.urb.number_of_packets = 2 ∧ (0 : Int) ≠ 1 - 2) := by
  refine ⟨by decide, by decide, by decide, by decide⟩

/-- C3 (amended): across any sequence of heartbeat ticks (nonnegative
elapsed times, driver ceiling nonnegative), an active OUT isochronous
endpoint credit never goes negative; a zero credit releases no urbs and
leaves the queue alone; the head urb is released only if its packet
count does not exceed credit + 1; credit is decremented by the packet
count of each released urb clamped below at zero (not by the raw packet
count, which is what the original claim said); and the credit
adjustment of oz_remove_urb is clamped the same way. -/
theorem C3_out_credit (ep : Endpoint) (deltas : List Int) (c : Int)
    (l : UrbLink) (rest urbs : List UrbLink) (urb : Urb)
    (hc : 0 ≤ ep.credit) (hceil : 0 ≤ ep.credit_ceiling)
    (hds : ∀ d, d ∈ deltas → 0 ≤ d) :
    0 ≤ (heartbeat_out_ticks ep deltas).credit ∧
    heartbeat_out_release 0 urbs = (0, [], urbs) ∧
    ((heartbeat_out_release c (l :: rest)).2.1 ≠ [] →
      (l.urb.number_of_packets : Int) ≤ c + 1) ∧
    (heartbeat_out_release c urbs).1
      = ((heartbeat_out_release c urbs).2.1).foldl
          (fun acc x => max 0 (acc - (x.urb.number_of_packets : Int))) c ∧
    0 ≤ (oz_remove_urb ep urb).2.credit :=
  ⟨heartbeat_out_ticks_nonneg deltas ep hc hceil hds,
   heartbeat_out_release_zero urbs,
   heartbeat_out_release_head c l rest,
   heartbeat_out_release_credit urbs c,
   oz_remove_urb_nonneg ep urb hc⟩

/-- C3 (witness): the amended statement at a concrete endpoint with
credit 3, ceiling 200 and one two-packet urb, over two ticks. -/
theorem C3_witness :
    0 ≤ (heartbeat_out_ticks epC3w [5, 7]).credit ∧
    heartbeat_out_release 0 [urblC3] = (0, [], [urblC3]) :=
  ⟨(C3_out_credit epC3w [5, 7] 1 urblC3 [] [urblC3] {} (by decide) (by decide)
      (by decide)).1,
   (C3_out_credit epC3w [5, 7] 1 urblC3 [] [urblC3] {} (by decide) (by decide)
      (by decide)).2.1⟩

set_option maxRecDepth 8000 in
/-- C2 (counterexample): the round-trip claim fails as stated, because
oz_hcd_buffer_data stores the unit length through a (u8) cast.  A unit
of 256 bytes is accepted by a fresh 512-byte interrupt ring (the space
check uses the untruncated length), but its stored length prefix is
256 mod 256 = 0, so reading it back - even with a 300-byte urb - yields
an empty unit of length 0 instead of the original bytes and length. -/
theorem C2_counterexample :
    (writeUnits epC2cx [List.replicate 256 7]).1 = 0 ∧
    (readUnitsBack (writeUnits epC2cx [List.replicate 256 7]).2 300 1).1 = [([], 0)] ∧
    ([([], 0)] : List (List Nat × Nat))
      ≠ [List.replicate 256 7].map (fun u => (u, u.length)) := by
  refine ⟨by decide, by decide, by decide⟩

/-- C2 (amended): for units of at most 255 bytes (the one-byte length
prefix), writing a sequence of units whose encoded stream fits the ring
(each write succeeding) and reading them back in order through
oz_complete_buffered_urb reproduces exactly the original bytes and
lengths, including units that wrap past the end of the buffer. -/
theorem C2_ring_roundtrip (ep : Endpoint) (q : List (List Nat))
    (hrep : ringRep ep [])
    (hlen : ∀ u, u ∈ q → u.length < 256)
    (hfit : (encodeUnits q).length < ep.buffer_size) :
    (writeUnits ep q).1 = 0 ∧
    (readUnitsBack (writeUnits ep q).2 255 q.length).1
      = q.map (fun u => (u, u.length)) := by
  obtain ⟨hw1, hw2⟩ := writeUnits_rep q ep [] hrep hlen (by simpa using hfit)
  simp only [List.nil_append] at hw2
  obtain ⟨hr1, hr2⟩ := readUnitsBack_rep q _ hw2
  exact ⟨hw1, hr1⟩

/-- C2 (witness): the round-trip at a concrete ring whose cursors start
at 5 of 8, so the first unit wraps the buffer boundary. -/
theorem C2_witness :
    (writeUnits epC2w [[1, 2, 3], [4, 5]]).1 = 0 ∧
    (readUnitsBack (writeUnits epC2w [[1, 2, 3], [4, 5]]).2 255 2).1
      = [[1, 2, 3], [4, 5]].map (fun u => (u, u.length)) :=
  C2_ring_roundtrip epC2w [[1, 2, 3], [4, 5]] (by decide) (by decide) (by decide)

/-- C8: with an allocated buffer and cursors in range,
oz_hcd_buffer_data fails with -1 and leaves the endpoint (buffer,
cursors and buffered-unit count) unchanged exactly when the circular
free space (out_ix - in_ix - 1 mod buffer_size) is below
data_len + 1; otherwise it returns 0, stores the one-byte length
prefix at the write cursor followed by the data bytes circularly, and
increments the buffered-unit count by one. -/
theorem C8_buffer_data_full_iff (ep : Endpoint) (data : List Nat)
    (hb : ep.hasBuffer = true)
    (hin : ep.in_ix < ep.buffer_size) (hout : ep.out_ix < ep.buffer_size) :
    ((oz_hcd_buffer_data ep data).1 = -1 ∧ (oz_hcd_buffer_data ep data).2 = ep
       ↔ ringSpace ep < (data.length : Int) + 1) ∧
    (¬ ringSpace ep < (data.length : Int) + 1 →
       (oz_hcd_buffer_data ep data).1 = 0 ∧
       (oz_hcd_buffer_data ep data).2.buffered_units = ep.buffered_units + 1 ∧
       (oz_hcd_buffer_data ep data).2.buffer ep.in_ix = data.length % 256 ∧
       (∀ j, j < data.length →
         (oz_hcd_buffer_data ep data).2.buffer ((ep.in_ix + 1 + j) % ep.buffer_size)
           = data.getD j 0) ∧
       (oz_hcd_buffer_data ep data).2.in_ix
           = (ep.in_ix + 1 + data.length) % ep.buffer_size ∧
       (oz_hcd_buffer_data ep data).2.out_ix = ep.out_ix) := by
  rw [← codeSpace_eq_ringSpace ep hin hout]
  constructor
  · constructor
    · intro hfail
      by_contra hsp
      have h := (buffer_data_ok ep data hb hin hout (by omega)).1
      rw [h] at hfail
      exact absurd hfail.1 (by decide)
    · intro hsp
      rw [buffer_data_fail ep data hsp]
      exact ⟨rfl, rfl⟩
  · intro hsp
    obtain ⟨h1, h2, h3, h4, h5, h6, h7, h8, h9⟩ :=
      buffer_data_ok ep data hb hin hout (by omega)
    exact ⟨h1, h5, h7, h8, h6, h4⟩

/-- C8 (witness): a ring of size 8 with exactly two free bytes accepts
a one-byte unit. -/
theorem C8_witness :
    (oz_hcd_buffer_data epC8w [9]).1 = 0 ∧
    (oz_hcd_buffer_data epC8w [9]).2.buffered_units = epC8w.buffered_units + 1 ∧
    (oz_hcd_buffer_data epC8w [9]).2.buffer epC8w.in_ix = 1 := by
  have h := (C8_buffer_data_full_iff epC8w [9] (by decide) (by decide) (by decide)).2
    (by decide)
  exact ⟨h.1, h.2.1, h.2.2.1⟩

/-- C9: draining a unit of stored length L into an urb whose
transfer_buffer_length B is smaller copies only B bytes, reports
actual_length B, decrements buffered_units, and advances the read
cursor by exactly 1 + B positions modulo buffer_size, so the remaining
L - B bytes of the unit are left in place (un-consumed). -/
theorem C9_short_read (ep : Endpoint) (urb : Urb)
    (hout : ep.out_ix < ep.buffer_size)
    (hlen : ep.buffer ep.out_ix < ep.buffer_size)
    (hshort : urb.transfer_buffer_length < ep.buffer ep.out_ix) :
    (oz_complete_buffered_urb ep urb).1.actual_length = urb.transfer_buffer_length ∧
    (oz_complete_buffered_urb ep urb).1.transfer_buffer.length
      = urb.transfer_buffer_length ∧
    (∀ j, j < urb.transfer_buffer_length →
      (oz_complete_buffered_urb ep urb).1.transfer_buffer.getD j 0
        = ep.buffer ((ep.out_ix + 1 + j) % ep.buffer_size)) ∧
    (oz_complete_buffered_urb ep urb).2
      = { ep with
          out_ix := (ep.out_ix + 1 + urb.transfer_buffer_length) % ep.buffer_size,
          buffered_units := ep.buffered_units - 1 } := by
  have h := complete_buffered_char ep urb hout hlen
  rw [Nat.min_eq_right (le_of_lt hshort)] at h
  exact h

/-- C10: every ring-buffer operation - writing a unit
(oz_hcd_buffer_data), draining a buffered unit into a urb
(oz_complete_buffered_urb), the whole heartbeat IN-isochronous
packet-by-packet drain (heartbeat_in_drain), and the overflow discard
loop (discardLoop) - preserves the invariant that both cursors lie in
[0, buffer_size).  The cursors are Nat, so the lower bound holds by
construction; the unit-consuming operations additionally assume the
stored cells are below buffer_size, which holds in the driver because
cells are bytes and both buffer sizes are at least 512. -/
theorem C10_cursor_invariant (ep : Endpoint) (data : List Nat) (urb : Urb)
    (urbs : List UrbLink)
    (hcur : cursorsInRange ep)
    (hcells : ∀ i, i < ep.buffer_size → ep.buffer i < ep.buffer_size) :
    cursorsInRange (oz_hcd_buffer_data ep data).2 ∧
    cursorsInRange (oz_complete_buffered_urb ep urb).2 ∧
    cursorsInRange (heartbeat_in_drain ep urbs).1 ∧
    cursorsInRange (discardLoop ep) :=
  ⟨buffer_data_cursors ep data hcur,
   complete_buffered_cursors ep urb hcur (hcells _ hcur.2),
   (drain_state urbs ep hcur hcells).1,
   (discardLoop_state _ ep rfl hcur hcells).1⟩

/-- C10 (witness): the four operations on a concrete ring state. -/
theorem C10_witness :
    cursorsInRange (oz_hcd_buffer_data epC10w [5]).2 ∧
    cursorsInRange (oz_complete_buffered_urb epC10w { transfer_buffer_length := 4 }).2 ∧
    cursorsInRange (heartbeat_in_drain epC10w epC10w.urb_list).1 ∧
    cursorsInRange (discardLoop epC10w) :=
  C10_cursor_invariant epC10w [5] { transfer_buffer_length := 4 } epC10w.urb_list
    (by decide) (by decide)

/-- C9 (witness): a 3-byte unit drained into a 2-byte urb delivers 2
bytes and leaves the cursor in the middle of the unit. -/
theorem C9_witness :
    (oz_complete_buffered_urb epC9w { transfer_buffer_length := 2 }).1.actual_length = 2 ∧
    (oz_complete_buffered_urb epC9w { transfer_buffer_length := 2 }).2.out_ix = 3 ∧
    (oz_complete_buffered_urb epC9w { transfer_buffer_length := 2 }).2.buffered_units = 0 := by
  have h := C9_short_read epC9w { transfer_buffer_length := 2 }
    (by decide) (by decide) (by decide)
  refine ⟨?_, ?_, ?_⟩
  · rw [h.1]
  · rw [h.2.2.2]
    decide
  · rw [h.2.2.2]
    decide

end Ozhcd
